import Mathlib

/-!
Verification of the résumé-parsing core of the `resume_generator` repository.

The development shallowly embeds the deterministic, rule-based parts of
`backend/app/services/nlp_parsing_service.py`,
`backend/app/services/section_detection_service.py` and
`backend/app/services/certification_extraction_service.py`:

* the text normalizer `_normalize_text`,
* the section segmenter `detect_sections` (heading tables, header matching,
  span construction),
* the date normalizer `_normalize_date` of the certification service,
* the contact validators `_validate_email`, `_validate_phone`, the postcode
  check of `_parse_personal_details`, the regex fallback extractors, and
* the orchestration of `parse_resume`.

Text is modelled as `List Char` (with `String` wrappers at the Python
function boundaries).  Python regular expressions are translated into
explicit, executable character-list matchers that reproduce the
leftmost/greedy backtracking behaviour of the concrete patterns used by the
source.  ASCII semantics are assumed for the character classes `\s`, `\d`,
`\w` and for `str.lower`/`str.strip` (the repository processes ASCII résumé
text).  External OpenRouter LLM calls are modelled as an `Oracle` record of
arbitrary response functions: every theorem quantifying over the oracle
holds regardless of how the external structured extractor behaves.
-/

namespace ResumeGen

/-! ## Character classes (ASCII fragments of the Python classes) -/

/-- The characters removed by Python `str.strip()` (ASCII whitespace:
space, tab, newline, carriage return, vertical tab, form feed);
also the ASCII fragment of the regex class `\s`. -/
def isPyWs (c : Char) : Bool :=
  c = ' ' || c = '\t' || c = '\n' || c = '\r' || c = Char.ofNat 11 || c = Char.ofNat 12

/-- The regex class `[ \t]` used by `_normalize_text`. -/
def isSpTab (c : Char) : Bool :=
  c = ' ' || c = '\t'

/-- ASCII word character, the regex class `\w` (used for `\b` boundaries). -/
def isWordChar (c : Char) : Bool :=
  c.isAlpha || c.isDigit || c = '_'

/-! ## Generic list helpers -/

/-- Left-to-right maximal-run collapsing: every maximal run of characters
satisfying `p` is replaced by a single space.  With `p := isSpTab` this is
`re.sub(r'[ \t]+', ' ', text)`; with `p := isPyWs` it is
`re.sub(r'\s+', ' ', text)` (ASCII). -/
def collapseRuns (p : Char → Bool) : List Char → List Char
  | [] => []
  | [c] => if p c then [' '] else [c]
  | c :: d :: rest =>
    if p c then
      if p d then collapseRuns p (d :: rest) else ' ' :: collapseRuns p (d :: rest)
    else c :: collapseRuns p (d :: rest)

/-- `text.replace('\r\n', '\n')`: left-to-right non-overlapping substring
replacement of the two-character sequence. -/
def replaceCRLF : List Char → List Char
  | [] => []
  | [c] => [c]
  | c :: d :: rest =>
    if c = '\r' ∧ d = '\n' then '\n' :: replaceCRLF rest
    else c :: replaceCRLF (d :: rest)

/-- `re.sub(r'\n{3,}', '\n\n', text)`: every maximal run of three or more
newlines becomes exactly two (runs of one or two are kept). -/
def squeezeNL : List Char → List Char
  | c :: d :: e :: rest =>
    if c = '\n' ∧ d = '\n' ∧ e = '\n' then squeezeNL (d :: e :: rest)
    else c :: squeezeNL (d :: e :: rest)
  | l => l

/-- `text.replace(a, b)` for single characters. -/
def replaceChar (a b : Char) (l : List Char) : List Char :=
  l.map fun c => if c = a then b else c

/-- Python `str.strip()` from the left. -/
def lstrip (l : List Char) : List Char :=
  l.dropWhile isPyWs

/-- Python `str.strip()` from the right. -/
def rstrip (l : List Char) : List Char :=
  (l.reverse.dropWhile isPyWs).reverse

/-- Python `str.strip()`. -/
def pyStrip (l : List Char) : List Char :=
  rstrip (lstrip l)

/-- Python `str.lower()` (ASCII). -/
def lowerL (l : List Char) : List Char :=
  l.map Char.toLower

/-! ## The text normalizer `_normalize_text` (nlp_parsing_service.py 56-69) -/

/-- `_normalize_text` of `nlp_parsing_service.py` on character lists:
normalize line endings, collapse horizontal whitespace, collapse 3+ newlines
to two, apply the OCR substitutions `'|' → 'I'` and `'0' → 'O'`, and strip. -/
def normalizeTextL (l : List Char) : List Char :=
  pyStrip (replaceChar '0' 'O' (replaceChar '|' 'I'
    (squeezeNL (collapseRuns isSpTab (replaceChar '\r' '\n' (replaceCRLF l))))))

/-- `_normalize_text` of `nlp_parsing_service.py`. -/
def normalizeText (s : String) : String :=
  ⟨normalizeTextL s.data⟩

/-! ## Invariant predicates for the normalizer -/

/-- No two adjacent characters both satisfy `p` (so `collapseRuns p` is the
identity when additionally no character needs rewriting to a space). -/
def noAdjPair (p : Char → Bool) : List Char → Bool
  | c :: d :: rest => (!(p c && p d)) && noAdjPair p (d :: rest)
  | _ => true

/-- No three consecutive newline characters. -/
def no3NL : List Char → Bool
  | c :: d :: e :: rest =>
    (!(c = '\n' && d = '\n' && e = '\n')) && no3NL (d :: e :: rest)
  | _ => true

theorem noAdjPair_cons {p : Char → Bool} {c : Char} {l : List Char} :
    noAdjPair p (c :: l) = true ↔
      (∀ d, l.head? = some d → ¬(p c = true ∧ p d = true)) ∧ noAdjPair p l = true := by
  cases l with
  | nil => simp [noAdjPair]
  | cons d rest =>
    simp only [noAdjPair, List.head?_cons, Bool.and_eq_true, Bool.not_eq_true']
    constructor
    · rintro ⟨h1, h2⟩
      refine ⟨?_, h2⟩
      rintro e he ⟨hc, hd⟩
      cases he
      rw [hc, hd] at h1; simp at h1
    · rintro ⟨h1, h2⟩
      refine ⟨?_, h2⟩
      by_contra h
      rw [Bool.not_eq_false, Bool.and_eq_true] at h
      exact h1 d rfl ⟨h.1, h.2⟩

theorem no3NL_cons {c : Char} {l : List Char} :
    no3NL (c :: l) = true ↔
      (¬(c = '\n' ∧ l.take 2 = ['\n', '\n'])) ∧ no3NL l = true := by
  match l with
  | [] => simp [no3NL]
  | [d] => simp [no3NL, List.take]
  | d :: e :: rest =>
    simp only [no3NL, Bool.and_eq_true, Bool.not_eq_true', List.take]
    constructor
    · rintro ⟨h1, h2⟩
      refine ⟨?_, h2⟩
      rintro ⟨hc, htake⟩
      simp at htake
      simp [hc, htake.1, htake.2] at h1
    · rintro ⟨h1, h2⟩
      refine ⟨?_, h2⟩
      by_contra h
      rw [Bool.not_eq_false] at h
      simp only [Bool.and_eq_true, decide_eq_true_eq] at h
      exact h1 ⟨h.1.1, by simp [h.1.2, h.2]⟩

/-! ## Membership lemmas: which characters each stage can produce -/

theorem mem_replaceCRLF {c : Char} : ∀ {l : List Char},
    c ∈ replaceCRLF l → c ∈ l ∨ c = '\n'
  | [], h => by simp [replaceCRLF] at h
  | [d], h => by
    simp only [replaceCRLF] at h; left; exact h
  | d :: e :: rest, h => by
    by_cases hc : d = '\r' ∧ e = '\n'
    · rw [replaceCRLF, if_pos hc] at h
      rcases List.mem_cons.1 h with h | h
      · right; exact h
      · rcases mem_replaceCRLF h with h' | h'
        · left; simp [h']
        · right; exact h'
    · rw [replaceCRLF, if_neg hc] at h
      rcases List.mem_cons.1 h with h | h
      · left; simp [h]
      · rcases mem_replaceCRLF h with h' | h'
        · left; simp at h' ⊢; tauto
        · right; exact h'

theorem mem_replaceChar {a b c : Char} {l : List Char}
    (h : c ∈ replaceChar a b l) : c ∈ l ∨ c = b := by
  simp only [replaceChar, List.mem_map] at h
  obtain ⟨d, hd, hc⟩ := h
  by_cases hda : d = a
  · subst hda; rw [if_pos rfl] at hc; right; exact hc.symm
  · rw [if_neg hda] at hc; left; exact hc ▸ hd

theorem mem_collapseRuns {p : Char → Bool} {c : Char} : ∀ {l : List Char},
    c ∈ collapseRuns p l → c ∈ l ∨ c = ' '
  | [], h => by simp [collapseRuns] at h
  | [d], h => by
    by_cases hd : p d = true
    · rw [collapseRuns, if_pos hd] at h; right; simpa using h
    · rw [collapseRuns, if_neg hd] at h; left; exact h
  | d :: e :: rest, h => by
    by_cases hd : p d = true
    · by_cases he : p e = true
      · rw [collapseRuns, if_pos hd, if_pos he] at h
        rcases mem_collapseRuns h with h' | h'
        · left; simp at h' ⊢; tauto
        · right; exact h'
      · rw [collapseRuns, if_pos hd, if_neg he] at h
        rcases List.mem_cons.1 h with h | h
        · right; exact h
        · rcases mem_collapseRuns h with h' | h'
          · left; simp at h' ⊢; tauto
          · right; exact h'
    · rw [collapseRuns, if_neg hd] at h
      rcases List.mem_cons.1 h with h | h
      · left; simp [h]
      · rcases mem_collapseRuns h with h' | h'
        · left; simp at h' ⊢; tauto
        · right; exact h'

theorem mem_squeezeNL {c : Char} : ∀ {l : List Char},
    c ∈ squeezeNL l → c ∈ l
  | [], h => by simp [squeezeNL] at h
  | [d], h => h
  | [d, e], h => h
  | d :: e :: f :: rest, h => by
    by_cases hc : d = '\n' ∧ e = '\n' ∧ f = '\n'
    · rw [squeezeNL, if_pos hc] at h
      have := mem_squeezeNL h; simp at this ⊢; tauto
    · rw [squeezeNL, if_neg hc] at h
      rcases List.mem_cons.1 h with h | h
      · simp [h]
      · have := mem_squeezeNL h; simp at this ⊢; tauto

theorem mem_lstrip {c : Char} {l : List Char} (h : c ∈ lstrip l) : c ∈ l :=
  (List.dropWhile_sublist isPyWs).subset h

theorem mem_rstrip {c : Char} {l : List Char} (h : c ∈ rstrip l) : c ∈ l := by
  simp only [rstrip, List.mem_reverse] at h
  simpa using (List.dropWhile_sublist isPyWs).subset h

theorem mem_pyStrip {c : Char} {l : List Char} (h : c ∈ pyStrip l) : c ∈ l :=
  mem_lstrip (mem_rstrip h)

/-! ## Head preservation -/

theorem collapseRuns_head (p : Char → Bool) : ∀ (x : Char) (xs : List Char),
    (collapseRuns p (x :: xs)).head? = some (if p x then ' ' else x)
  | x, [] => by
    by_cases hx : p x = true
    · rw [collapseRuns, if_pos hx, if_pos hx]; rfl
    · rw [collapseRuns, if_neg hx, if_neg hx]; rfl
  | x, y :: ys => by
    by_cases hx : p x = true
    · by_cases hy : p y = true
      · rw [collapseRuns, if_pos hx, if_pos hy, collapseRuns_head p y ys,
          if_pos hy, if_pos hx]
      · rw [collapseRuns, if_pos hx, if_neg hy, if_pos hx]; rfl
    · rw [collapseRuns, if_neg hx, if_neg hx]; rfl

theorem squeezeNL_head : ∀ (x : Char) (xs : List Char),
    (squeezeNL (x :: xs)).head? = some x
  | x, [] => rfl
  | x, [y] => rfl
  | x, y :: z :: rest => by
    by_cases hc : x = '\n' ∧ y = '\n' ∧ z = '\n'
    · rw [squeezeNL, if_pos hc, squeezeNL_head y (z :: rest), hc.1, hc.2.1]
    · rw [squeezeNL, if_neg hc]; rfl

/-! ## Production of the invariants -/

theorem collapseRuns_spGood {p : Char → Bool} : ∀ {l : List Char} {c : Char},
    c ∈ collapseRuns p l → p c = true → c = ' '
  | [], c, h, _ => by simp [collapseRuns] at h
  | [d], c, h, hp => by
    by_cases hd : p d = true
    · rw [collapseRuns, if_pos hd] at h; simpa using h
    · rw [collapseRuns, if_neg hd] at h; simp at h; subst h; simp [hd] at hp
  | d :: e :: rest, c, h, hp => by
    by_cases hd : p d = true
    · by_cases he : p e = true
      · rw [collapseRuns, if_pos hd, if_pos he] at h
        exact collapseRuns_spGood h hp
      · rw [collapseRuns, if_pos hd, if_neg he] at h
        rcases List.mem_cons.1 h with h | h
        · exact h
        · exact collapseRuns_spGood h hp
    · rw [collapseRuns, if_neg hd] at h
      rcases List.mem_cons.1 h with h | h
      · subst h; simp [hd] at hp
      · exact collapseRuns_spGood h hp

theorem collapseRuns_noAdjPair (p : Char → Bool) : ∀ (l : List Char),
    noAdjPair p (collapseRuns p l) = true
  | [] => rfl
  | [d] => by
    by_cases hd : p d = true
    · rw [collapseRuns, if_pos hd]; rfl
    · rw [collapseRuns, if_neg hd]; rfl
  | d :: e :: rest => by
    by_cases hd : p d = true
    · by_cases he : p e = true
      · rw [collapseRuns, if_pos hd, if_pos he]
        exact collapseRuns_noAdjPair p (e :: rest)
      · rw [collapseRuns, if_pos hd, if_neg he]
        rw [noAdjPair_cons]
        refine ⟨?_, collapseRuns_noAdjPair p (e :: rest)⟩
        intro b hb
        rw [collapseRuns_head p e rest, if_neg he] at hb
        rintro ⟨-, hpb⟩
        cases hb; exact absurd hpb (by simpa using he)
    · rw [collapseRuns, if_neg hd, noAdjPair_cons]
      refine ⟨?_, collapseRuns_noAdjPair p (e :: rest)⟩
      rintro b hb ⟨hpd, -⟩
      exact absurd hpd (by simpa using hd)

theorem squeezeNL_no3NL : ∀ (l : List Char), no3NL (squeezeNL l) = true
  | [] => rfl
  | [d] => rfl
  | [d, e] => rfl
  | d :: e :: f :: rest => by
    by_cases hc : d = '\n' ∧ e = '\n' ∧ f = '\n'
    · rw [squeezeNL, if_pos hc]
      exact squeezeNL_no3NL (e :: f :: rest)
    · rw [squeezeNL, if_neg hc, no3NL_cons]
      refine ⟨?_, squeezeNL_no3NL (e :: f :: rest)⟩
      rintro ⟨hd, htake⟩
      -- the first two characters of `squeezeNL (e :: f :: rest)` cannot both
      -- be newlines, because `d = '\n'` rules out `e = '\n' ∧ f = '\n'`
      subst hd
      by_cases he : e = '\n'
      · have hf : ¬ f = '\n' := fun hf => hc ⟨rfl, he, hf⟩
        subst he
        cases rest with
        | nil =>
          have htake' : List.take 2 ['\n', f] = ['\n', '\n'] := htake
          simp only [List.take, List.cons.injEq] at htake'
          exact hf htake'.2.1
        | cons g rest2 =>
          rw [squeezeNL, if_neg (fun h => hf h.2.1)] at htake
          have hh := squeezeNL_head f (g :: rest2)
          cases hs : squeezeNL (f :: g :: rest2) with
          | nil => rw [hs] at hh; cases hh
          | cons a as =>
            rw [hs] at hh htake
            simp only [List.head?_cons, Option.some.injEq] at hh
            simp only [List.take, List.cons.injEq] at htake
            exact hf (hh.symm.trans htake.2.1)
      · have hh := squeezeNL_head e (f :: rest)
        cases hs : squeezeNL (e :: f :: rest) with
        | nil => rw [hs] at htake; cases htake
        | cons a as =>
          rw [hs] at hh htake
          simp only [List.head?_cons, Option.some.injEq] at hh
          simp only [List.take, List.cons.injEq] at htake
          exact he (hh.symm.trans htake.1)

/-! ## Preservation of the invariants -/

theorem noAdjPair_squeezeNL {p : Char → Bool} : ∀ {l : List Char},
    noAdjPair p l = true → noAdjPair p (squeezeNL l) = true
  | [], _ => rfl
  | [d], h => h
  | [d, e], h => h
  | d :: e :: f :: rest, h => by
    have h1 := (noAdjPair_cons.1 h).1
    have h2 := (noAdjPair_cons.1 h).2
    by_cases hc : d = '\n' ∧ e = '\n' ∧ f = '\n'
    · rw [squeezeNL, if_pos hc]; exact noAdjPair_squeezeNL h2
    · rw [squeezeNL, if_neg hc, noAdjPair_cons]
      refine ⟨?_, noAdjPair_squeezeNL h2⟩
      intro b hb
      rw [squeezeNL_head e (f :: rest)] at hb
      cases hb
      exact h1 e rfl

theorem noAdjPair_map {p : Char → Bool} (f : Char → Char)
    (hf : ∀ c, p (f c) = p c) : ∀ {l : List Char},
    noAdjPair p l = true → noAdjPair p (l.map f) = true
  | [], _ => rfl
  | [d], _ => rfl
  | d :: e :: rest, h => by
    rw [List.map_cons, List.map_cons, noAdjPair_cons]
    have h1 := (noAdjPair_cons.1 h).1
    have h2 := (noAdjPair_cons.1 h).2
    refine ⟨?_, ?_⟩
    · intro b hb
      simp only [List.head?_cons, Option.some.injEq] at hb
      subst hb
      rintro ⟨hfd, hfe⟩
      rw [hf] at hfd hfe
      exact h1 e rfl ⟨hfd, hfe⟩
    · have := noAdjPair_map f hf h2
      rwa [List.map_cons] at this

theorem no3NL_map (f : Char → Char) (hf : ∀ c, f c = '\n' ↔ c = '\n') :
    ∀ {l : List Char}, no3NL l = true → no3NL (l.map f) = true
  | [], _ => rfl
  | [d], _ => rfl
  | [d, e], _ => rfl
  | d :: e :: g :: rest, h => by
    obtain ⟨h1, h2⟩ := no3NL_cons.1 h
    rw [List.map_cons, List.map_cons, List.map_cons, no3NL_cons]
    constructor
    · rintro ⟨hfd, htake⟩
      simp only [List.take, List.cons.injEq] at htake
      refine h1 ⟨(hf d).1 hfd, ?_⟩
      simp only [List.take, List.cons.injEq]
      exact ⟨(hf e).1 htake.1, (hf g).1 htake.2.1, trivial⟩
    · have := no3NL_map f hf h2
      rwa [List.map_cons, List.map_cons] at this

theorem noAdjPair_append_right {p : Char → Bool} : ∀ {l m : List Char},
    noAdjPair p (l ++ m) = true → noAdjPair p m = true
  | [], _, h => h
  | c :: l, m, h => by
    rw [List.cons_append] at h
    exact noAdjPair_append_right (noAdjPair_cons.1 h).2

theorem noAdjPair_append_left {p : Char → Bool} : ∀ {l m : List Char},
    noAdjPair p (l ++ m) = true → noAdjPair p l = true
  | [], _, _ => rfl
  | [c], _, _ => rfl
  | c :: d :: l, m, h => by
    rw [List.cons_append, noAdjPair_cons] at h
    rw [noAdjPair_cons]
    refine ⟨?_, noAdjPair_append_left h.2⟩
    intro b hb
    apply h.1
    rw [List.cons_append]
    simpa using hb

theorem no3NL_append_right : ∀ {l m : List Char},
    no3NL (l ++ m) = true → no3NL m = true
  | [], _, h => h
  | c :: l, m, h => by
    rw [List.cons_append] at h
    exact no3NL_append_right (no3NL_cons.1 h).2

theorem no3NL_append_left : ∀ {l m : List Char},
    no3NL (l ++ m) = true → no3NL l = true
  | [], _, _ => rfl
  | [c], _, _ => rfl
  | [c, d], _, _ => rfl
  | c :: d :: e :: l, m, h => by
    rw [List.cons_append, no3NL_cons] at h
    rw [no3NL_cons]
    refine ⟨?_, no3NL_append_left h.2⟩
    rintro ⟨hc, htake⟩
    apply h.1
    refine ⟨hc, ?_⟩
    rw [List.cons_append, List.cons_append]
    simp only [List.take, List.cons.injEq] at htake ⊢
    exact ⟨htake.1, htake.2.1, trivial⟩

/-! ## Fixed points: each normalizer stage is the identity on normal forms -/

theorem replaceChar_eq_self {a b : Char} : ∀ {l : List Char}, a ∉ l → replaceChar a b l = l
  | [], _ => rfl
  | c :: rest, h => by
    have hc : ¬ c = a := fun hc => h (by simp [hc])
    have hr : a ∉ rest := fun hr => h (List.mem_cons_of_mem _ hr)
    simp only [replaceChar, List.map_cons, if_neg hc]
    have := replaceChar_eq_self (a := a) (b := b) hr
    simp only [replaceChar] at this
    rw [this]

theorem replaceCRLF_eq_self : ∀ {l : List Char}, '\r' ∉ l → replaceCRLF l = l
  | [], _ => rfl
  | [c], _ => rfl
  | c :: d :: rest, h => by
    have hc : ¬ (c = '\r' ∧ d = '\n') := fun hx => h (by simp [hx.1])
    rw [replaceCRLF, if_neg hc,
      replaceCRLF_eq_self (fun hr => h (List.mem_cons_of_mem _ hr))]

theorem collapseRuns_eq_self {p : Char → Bool} : ∀ {l : List Char},
    noAdjPair p l = true → (∀ c ∈ l, p c = true → c = ' ') → collapseRuns p l = l
  | [], _, _ => rfl
  | [c], _, hsp => by
    by_cases hc : p c = true
    · rw [collapseRuns, if_pos hc, hsp c (by simp) hc]
    · rw [collapseRuns, if_neg hc]
  | c :: d :: rest, hadj, hsp => by
    obtain ⟨h1, h2⟩ := noAdjPair_cons.1 hadj
    have hsp' : ∀ e ∈ d :: rest, p e = true → e = ' ' :=
      fun e he => hsp e (List.mem_cons_of_mem _ he)
    by_cases hc : p c = true
    · have hd : ¬ p d = true := fun hd => h1 d rfl ⟨hc, hd⟩
      rw [collapseRuns, if_pos hc, if_neg hd, collapseRuns_eq_self h2 hsp',
        hsp c (by simp) hc]
    · rw [collapseRuns, if_neg hc, collapseRuns_eq_self h2 hsp']

theorem squeezeNL_eq_self : ∀ {l : List Char}, no3NL l = true → squeezeNL l = l
  | [], _ => rfl
  | [c], _ => rfl
  | [c, d], _ => rfl
  | c :: d :: e :: rest, h => by
    obtain ⟨h1, h2⟩ := no3NL_cons.1 h
    have hc : ¬ (c = '\n' ∧ d = '\n' ∧ e = '\n') := by
      rintro ⟨hx, hy, hz⟩
      exact h1 ⟨hx, by simp [List.take, hy, hz]⟩
    rw [squeezeNL, if_neg hc, squeezeNL_eq_self h2]

theorem head?_dropWhile_not {q : Char → Bool} : ∀ {l : List Char} {c : Char},
    (l.dropWhile q).head? = some c → q c = false
  | [], c, h => by simp at h
  | d :: rest, c, h => by
    by_cases hd : q d = true
    · rw [List.dropWhile_cons_of_pos hd] at h
      exact head?_dropWhile_not h
    · rw [List.dropWhile_cons_of_neg hd] at h
      simp at h
      subst h
      simpa using hd

theorem dropWhile_eq_self_of_head {q : Char → Bool} {l : List Char}
    (h : ∀ c, l.head? = some c → q c = false) : l.dropWhile q = l := by
  cases l with
  | nil => rfl
  | cons c rest => exact List.dropWhile_cons_of_neg (by simp [h c rfl])

theorem rstrip_decomp (l : List Char) :
    rstrip l ++ (l.reverse.takeWhile isPyWs).reverse = l := by
  conv_rhs => rw [← List.reverse_reverse l,
    ← List.takeWhile_append_dropWhile (p := isPyWs) (l := l.reverse)]
  rw [List.reverse_append, rstrip]

/-- The output of `pyStrip` neither starts nor ends with Python whitespace,
so stripping it again is the identity. -/
theorem pyStrip_idem (l : List Char) : pyStrip (pyStrip l) = pyStrip l := by
  have hl : lstrip (pyStrip l) = pyStrip l := by
    apply dropWhile_eq_self_of_head
    intro c hc
    cases hyl : pyStrip l with
    | nil => rw [hyl] at hc; cases hc
    | cons a as =>
      rw [hyl] at hc
      simp only [List.head?_cons, Option.some.injEq] at hc
      have hdec := rstrip_decomp (lstrip l)
      have hhead : (lstrip l).head? = some a := by
        rw [← hdec]
        show (pyStrip l ++ _).head? = some a
        rw [hyl]; rfl
      rw [← hc]
      exact head?_dropWhile_not (l := l) hhead
  have hr : rstrip (pyStrip l) = pyStrip l := by
    have hyr : (pyStrip l).reverse = (lstrip l).reverse.dropWhile isPyWs := by
      show (rstrip (lstrip l)).reverse = _
      rw [rstrip, List.reverse_reverse]
    have hself : ((pyStrip l).reverse).dropWhile isPyWs = (pyStrip l).reverse := by
      apply dropWhile_eq_self_of_head
      intro c hc
      exact head?_dropWhile_not (l := (lstrip l).reverse) (hyr ▸ hc)
    rw [rstrip, hself, List.reverse_reverse]
  show rstrip (lstrip (pyStrip l)) = pyStrip l
  rw [hl, hr]

/-! ## The normal-form facts for `normalizeTextL`, and idempotence (C5) -/

theorem not_mem_replaceChar {a b : Char} (hba : b ≠ a) (l : List Char) :
    a ∉ replaceChar a b l := by
  intro h
  simp only [replaceChar, List.mem_map] at h
  obtain ⟨d, -, hd⟩ := h
  by_cases hda : d = a
  · rw [if_pos hda] at hd; exact hba hd
  · rw [if_neg hda] at hd; exact hda hd

theorem normalizeTextL_noCR (l : List Char) : '\r' ∉ normalizeTextL l := by
  intro h
  rcases mem_replaceChar (mem_pyStrip h) with h5 | h5
  · rcases mem_replaceChar h5 with h4 | h4
    · rcases mem_collapseRuns (mem_squeezeNL h4) with h2 | h2
      · exact not_mem_replaceChar (by decide) _ h2
      · exact absurd h2 (by decide)
    · exact absurd h4 (by decide)
  · exact absurd h5 (by decide)

theorem normalizeTextL_noPipe (l : List Char) : '|' ∉ normalizeTextL l := by
  intro h
  rcases mem_replaceChar (mem_pyStrip h) with h5 | h5
  · exact not_mem_replaceChar (by decide) _ h5
  · exact absurd h5 (by decide)

theorem normalizeTextL_noZero (l : List Char) : '0' ∉ normalizeTextL l :=
  fun h => not_mem_replaceChar (by decide) _ (mem_pyStrip h)

theorem normalizeTextL_spGood (l : List Char) :
    ∀ c ∈ normalizeTextL l, isSpTab c = true → c = ' ' := by
  intro c h hsp
  rcases mem_replaceChar (mem_pyStrip h) with h5 | h5
  · rcases mem_replaceChar h5 with h4 | h4
    · exact collapseRuns_spGood (mem_squeezeNL h4) hsp
    · subst h4; simp [isSpTab] at hsp
  · subst h5; simp [isSpTab] at hsp

theorem lstrip_decomp (l : List Char) : l.takeWhile isPyWs ++ lstrip l = l :=
  List.takeWhile_append_dropWhile isPyWs l

theorem noAdjPair_pyStrip {p : Char → Bool} {l : List Char}
    (h : noAdjPair p l = true) : noAdjPair p (pyStrip l) = true := by
  have h1 : noAdjPair p (lstrip l) = true :=
    noAdjPair_append_right (by rw [lstrip_decomp]; exact h)
  rw [← rstrip_decomp (lstrip l)] at h1
  exact noAdjPair_append_left h1

theorem no3NL_pyStrip {l : List Char} (h : no3NL l = true) :
    no3NL (pyStrip l) = true := by
  have h1 : no3NL (lstrip l) = true :=
    no3NL_append_right (by rw [lstrip_decomp]; exact h)
  rw [← rstrip_decomp (lstrip l)] at h1
  exact no3NL_append_left h1

theorem spTab_replaceChar_pipe (c : Char) :
    isSpTab (if c = '|' then 'I' else c) = isSpTab c := by
  by_cases h : c = '|' <;> simp [h, isSpTab]

theorem spTab_replaceChar_zero (c : Char) :
    isSpTab (if c = '0' then 'O' else c) = isSpTab c := by
  by_cases h : c = '0' <;> simp [h, isSpTab]

theorem nl_replaceChar_pipe (c : Char) :
    (if c = '|' then 'I' else c) = '\n' ↔ c = '\n' := by
  by_cases h : c = '|' <;> simp [h]

theorem nl_replaceChar_zero (c : Char) :
    (if c = '0' then 'O' else c) = '\n' ↔ c = '\n' := by
  by_cases h : c = '0' <;> simp [h]

theorem normalizeTextL_noAdj (l : List Char) :
    noAdjPair isSpTab (normalizeTextL l) = true := by
  apply noAdjPair_pyStrip
  apply noAdjPair_map _ spTab_replaceChar_zero
  apply noAdjPair_map _ spTab_replaceChar_pipe
  apply noAdjPair_squeezeNL
  exact collapseRuns_noAdjPair isSpTab _

theorem normalizeTextL_no3NL (l : List Char) :
    no3NL (normalizeTextL l) = true := by
  apply no3NL_pyStrip
  apply no3NL_map _ nl_replaceChar_zero
  apply no3NL_map _ nl_replaceChar_pipe
  exact squeezeNL_no3NL _

theorem normalizeTextL_idem (l : List Char) :
    normalizeTextL (normalizeTextL l) = normalizeTextL l := by
  have h7 : pyStrip (normalizeTextL l) = normalizeTextL l := by
    rw [show normalizeTextL l = pyStrip (replaceChar '0' 'O' (replaceChar '|' 'I'
      (squeezeNL (collapseRuns isSpTab (replaceChar '\r' '\n' (replaceCRLF l))))))
      from rfl, pyStrip_idem]
  rw [normalizeTextL,
    replaceCRLF_eq_self (normalizeTextL_noCR l),
    replaceChar_eq_self (normalizeTextL_noCR l),
    collapseRuns_eq_self (normalizeTextL_noAdj l) (normalizeTextL_spGood l),
    squeezeNL_eq_self (normalizeTextL_no3NL l),
    replaceChar_eq_self (normalizeTextL_noPipe l),
    replaceChar_eq_self (normalizeTextL_noZero l)]
  exact h7

/-- C5: the text normalizer `_normalize_text` is idempotent: for every input
string `t`, `_normalize_text(_normalize_text(t)) = _normalize_text(t)`. -/
theorem normalize_text_idempotent (s : String) :
    normalizeText (normalizeText s) = normalizeText s :=
  congrArg String.mk (normalizeTextL_idem s.data)

/-! ## Heading tables (section_detection_service.py 7-115) -/

def CERTIFICATE_HEADINGS : List String := [
  "certificate", "certificates", "certification", "certifications",
  "courses", "trainings", "achievements", "skill certifications",
  "online courses", "licenses", "credentials"
]

def SKILL_HEADINGS : List String := [
  "technical skills", "technical skill", "skills", "skillset", "tech skills",
  "core skills", "key skills", "hard skills", "professional skills",
  "technical proficiencies", "technical proficiency", "technical expertise",
  "software skills", "tools & technologies", "tools and technologies",
  "technologies", "tech stack", "technical toolkit", "programming skills",
  "programming languages", "programming language",
  "it skills", "computer skills", "domain skills", "specialized skills",
  "primary skills", "relevant skills", "development skills",
  "technical competencies", "skill highlights", "skills highlights",
  "languages", "language", "Languages", "Language",
  "tools", "tool", "technical tools", "software tools", "developer tools"
]

def SUMMARY_HEADINGS : List String := [
  "summary", "professional summary", "career summary", "profile",
  "about me", "about", "objective", "career objective",
  "professional objective", "personal statement", "overview",
  "executive summary"
]

def EDUCATION_HEADINGS : List String := [
  "education", "academic", "academics", "academic background",
  "educational background", "educational qualifications", "qualification",
  "qualifications", "education & qualifications", "academic qualifications",
  "schooling", "education details", "education history"
]

def EXPERIENCE_HEADINGS : List String := [
  "experience", "work experience", "professional experience", "employment",
  "employment history", "work history", "career history", "job experience",
  "industry experience", "internship", "internships",
  "internship experience", "industrial training", "training",
  "apprenticeship", "practical experience", "hands-on experience"
]

def PROJECT_HEADINGS : List String := [
  "projects", "project", "personal projects", "side projects",
  "portfolio projects", "key projects", "notable projects",
  "selected projects", "project experience", "project work"
]

def ACHIEVEMENT_HEADINGS : List String := [
  "achievements", "achievement", "awards", "award", "honors", "honor",
  "accomplishments", "accomplishment", "recognition", "recognitions",
  "awards & achievements", "honors & awards"
]

/-- The `SECTION_HEADERS` dict, in Python insertion order. -/
def SECTION_HEADERS : List (String × List String) := [
  ("summary", SUMMARY_HEADINGS),
  ("experience", EXPERIENCE_HEADINGS),
  ("education", EDUCATION_HEADINGS),
  ("skills", SKILL_HEADINGS),
  ("certifications", CERTIFICATE_HEADINGS),
  ("projects", PROJECT_HEADINGS),
  ("achievements", ACHIEVEMENT_HEADINGS)
]

/-! ## `detect_sections` (section_detection_service.py 182-239) -/

def isPrefixL : List Char → List Char → Bool
  | [], _ => true
  | _ :: _, [] => false
  | a :: as, b :: bs => a = b && isPrefixL as bs

def isSuffixL (pat l : List Char) : Bool :=
  isPrefixL pat.reverse l.reverse

/-- Python substring test `pat in l`. -/
def containsSub (pat : List Char) : List Char → Bool
  | [] => isPrefixL pat []
  | c :: rest => isPrefixL pat (c :: rest) || containsSub pat rest

/-- Python `str.splitlines()` line-break characters (the BMP set). -/
def isLineBreak (c : Char) : Bool :=
  c = '\n' || c = '\r' || c = Char.ofNat 11 || c = Char.ofNat 12 ||
  c = Char.ofNat 28 || c = Char.ofNat 29 || c = Char.ofNat 30 ||
  c = Char.ofNat 0x85 || c = Char.ofNat 0x2028 || c = Char.ofNat 0x2029

def splitlinesAux : List Char → List Char → List (List Char)
  | [], acc => if acc.isEmpty then [] else [acc.reverse]
  | '\r' :: '\n' :: rest, acc => acc.reverse :: splitlinesAux rest []
  | c :: rest, acc =>
    if isLineBreak c then acc.reverse :: splitlinesAux rest []
    else splitlinesAux rest (c :: acc)

/-- Python `text.splitlines()`. -/
def splitlinesL (l : List Char) : List (List Char) :=
  splitlinesAux l []

/-- The header-match test of `detect_sections` for one already-normalized
variant `vnorm` against one normalized line `normed`: equality, `startswith`
with a following space, `endswith` with a leading space, standalone-token
containment, or `startswith` with a following `':'` or `'-'`. -/
def headerMatch (vnorm normed : List Char) : Bool :=
  normed == vnorm ||
  isPrefixL (vnorm ++ [' ']) normed ||
  isSuffixL ([' '] ++ vnorm) normed ||
  containsSub ([' '] ++ vnorm ++ [' ']) ([' '] ++ normed ++ [' ']) ||
  isPrefixL (vnorm ++ [':']) normed ||
  isPrefixL (vnorm ++ ['-']) normed

/-- One variant test: the source computes `v_norm = variant.lower().strip()`. -/
def variantMatches (normed : List Char) (v : String) : Bool :=
  headerMatch (pyStrip (lowerL v.data)) normed

/-- The section keys whose synonym list matches the normalized line, in
table order (the inner `break` of the source makes a section match as soon
as any of its variants matches). -/
def lineKeys (normed : List Char) : List String :=
  (SECTION_HEADERS.filter fun kv => kv.2.any (variantMatches normed)).map Prod.fst

/-- The inner double loop of `detect_sections` for one line: for each
section (in table order), append `(key, i)` on the first matching variant,
unless the pair is already recorded. -/
def scanStep (tbl : List (String × List String)) (acc : List (String × Nat))
    (i : Nat) (normed : List Char) : List (String × Nat) :=
  tbl.foldl
    (fun acc2 kv =>
      if kv.2.any (variantMatches normed) then
        if (kv.1, i) ∈ acc2 then acc2 else acc2 ++ [(kv.1, i)]
      else acc2)
    acc

def headerSpansAux : Nat → List (List Char) → List (String × Nat) → List (String × Nat)
  | _, [], acc => acc
  | i, line :: rest, acc =>
    let normed := lowerL (pyStrip line)
    headerSpansAux (i + 1) rest
      (if normed.isEmpty then acc else scanStep SECTION_HEADERS acc i normed)

/-- The `header_spans` list of `detect_sections`: `(section_key, line_index)`
pairs in the order the double loop appends them. -/
def headerSpansL (lines : List (List Char)) : List (String × Nat) :=
  headerSpansAux 0 lines []

/-- Stable insertion by line index: an element is placed after all elements
with a smaller-or-equal index, which is exactly the effect of the stable
Python `list.sort(key=lambda x: x[1])`. -/
def insertByLine (x : String × Nat) : List (String × Nat) → List (String × Nat)
  | [] => [x]
  | y :: ys => if x.2 ≤ y.2 then x :: y :: ys else y :: insertByLine x ys

def sortByLine : List (String × Nat) → List (String × Nat)
  | [] => []
  | x :: xs => insertByLine x (sortByLine xs)

/-- Python `"\n".join(ls)`. -/
def joinNL : List (List Char) → List Char
  | [] => []
  | [l] => l
  | l :: l2 :: rest => l ++ '\n' :: joinNL (l2 :: rest)

/-- In-place dict update `sections[key] = v` on the association-list model. -/
def updAssoc (m : List (String × String)) (k : String) (v : String) :
    List (String × String) :=
  m.map fun p => if p.1 = k then (k, v) else p

def lookupD (m : List (String × String)) (k : String) : String :=
  (m.lookup k).getD ""

/-- The content span of the `idx`-th sorted header match: it starts on the
line after the heading and ends just before the next match's line (or at the
end of the document). -/
def spanBounds (lines : List (List Char)) (spans : List (String × Nat))
    (idx : Nat) : Nat × Nat :=
  ((spans.getD idx ("", 0)).2 + 1,
   match spans.get? (idx + 1) with
   | some q => q.2
   | none => lines.length)

/-- One iteration of the span-slicing loop of `detect_sections`: slice the
body between successive headers and merge it into the section's entry with a
blank-line separator when the section already has content. -/
def buildStep (lines : List (List Char)) (spans : List (String × Nat))
    (m : List (String × String)) (idxEntry : Nat × (String × Nat)) :
    List (String × String) :=
  let idx := idxEntry.1
  let key := idxEntry.2.1
  let b := spanBounds lines spans idx
  let body : String := ⟨pyStrip (joinNL ((lines.drop b.1).take (b.2 - b.1)))⟩
  let old := lookupD m key
  updAssoc m key (if old ≠ "" then old ++ "\n\n" ++ body else body)

/-- `detect_sections` of `section_detection_service.py`, as a mapping from
section key to section body (association list in dict order). -/
def detectSections (t : String) : List (String × String) :=
  let lines := splitlinesL t.data
  let init := SECTION_HEADERS.map fun kv => (kv.1, "")
  let spans := headerSpansL lines
  if spans.isEmpty then init
  else (sortByLine spans).enum.foldl (buildStep lines (sortByLine spans)) init

/-- The sorted header-span list produced inside `detect_sections`. -/
def sortedSpansOf (t : String) : List (String × Nat) :=
  sortByLine (headerSpansL (splitlinesL t.data))

/-! ## C2: the heading-synonym tables are NOT pairwise disjoint -/

set_option maxRecDepth 8000

/-- C2 counterexample: the synonym string `"achievements"` occurs in the
heading lists of two different sections of the section-header table — it is
a certifications synonym and an achievements synonym at once, so the
heading-synonym sets are not pairwise disjoint. -/
theorem section_headers_shared_synonym :
    (("achievements" ∈ CERTIFICATE_HEADINGS ∧ "achievements" ∈ ACHIEVEMENT_HEADINGS) ∧
     ("certifications", CERTIFICATE_HEADINGS) ∈ SECTION_HEADERS ∧
     ("achievements", ACHIEVEMENT_HEADINGS) ∈ SECTION_HEADERS) ∧
    ("certifications" : String) ≠ "achievements" := by decide

/-- C2 (amended): the heading-synonym sets of the seven sections are
pairwise disjoint except for the single string `"achievements"`, which is
shared between the certifications and achievements heading lists. -/
theorem section_headers_disjoint_except_achievements :
    ∀ a ∈ SECTION_HEADERS, ∀ b ∈ SECTION_HEADERS, a.1 ≠ b.1 →
      a.2.filter (fun s => b.2.contains s) =
        (if (a.1 = "certifications" ∧ b.1 = "achievements") ∨
            (a.1 = "achievements" ∧ b.1 = "certifications")
         then ["achievements"] else []) := by decide

/-- C2 witness: instantiating the amended disjointness statement on the
summary and experience rows of the table. -/
theorem section_headers_disjoint_except_achievements_witness :
    ("summary", SUMMARY_HEADINGS) ∈ SECTION_HEADERS ∧
    ("experience", EXPERIENCE_HEADINGS) ∈ SECTION_HEADERS ∧
    SUMMARY_HEADINGS.filter (fun s => EXPERIENCE_HEADINGS.contains s) = [] := by
  refine ⟨by decide, by decide, ?_⟩
  have h := section_headers_disjoint_except_achievements
    ("summary", SUMMARY_HEADINGS) (by decide)
    ("experience", EXPERIENCE_HEADINGS) (by decide) (by decide)
  simpa using h

/-! ## Sortedness of the span list -/

theorem mem_insertByLine {x z : String × Nat} : ∀ {l : List (String × Nat)},
    z ∈ insertByLine x l ↔ z = x ∨ z ∈ l
  | [] => by simp [insertByLine]
  | y :: ys => by
    by_cases h : x.2 ≤ y.2
    · rw [insertByLine, if_pos h]
      simp only [List.mem_cons]
    · rw [insertByLine, if_neg h]
      simp only [List.mem_cons, mem_insertByLine (l := ys)]
      tauto

theorem mem_sortByLine {z : String × Nat} : ∀ {l : List (String × Nat)},
    z ∈ sortByLine l ↔ z ∈ l
  | [] => Iff.rfl
  | x :: xs => by
    rw [sortByLine, mem_insertByLine]
    simp only [List.mem_cons, mem_sortByLine (l := xs)]

theorem insertByLine_pairwise {x : String × Nat} : ∀ {l : List (String × Nat)},
    l.Pairwise (fun p q => p.2 ≤ q.2) →
    (insertByLine x l).Pairwise (fun p q => p.2 ≤ q.2)
  | [], _ => by simp [insertByLine]
  | y :: ys, h => by
    rw [List.pairwise_cons] at h
    by_cases hxy : x.2 ≤ y.2
    · rw [insertByLine, if_pos hxy, List.pairwise_cons]
      refine ⟨?_, List.pairwise_cons.2 h⟩
      intro z hz
      rcases List.mem_cons.1 hz with rfl | hz
      · omega
      · exact le_trans hxy (h.1 z hz)
    · rw [insertByLine, if_neg hxy, List.pairwise_cons]
      refine ⟨?_, insertByLine_pairwise h.2⟩
      intro z hz
      rcases mem_insertByLine.1 hz with rfl | hz
      · omega
      · exact h.1 z hz

theorem sortByLine_pairwise : ∀ l : List (String × Nat),
    (sortByLine l).Pairwise (fun p q => p.2 ≤ q.2)
  | [] => List.Pairwise.nil
  | x :: xs => insertByLine_pairwise (sortByLine_pairwise xs)

theorem sorted_getD_mono {s : List (String × Nat)}
    (hs : s.Pairwise (fun p q => p.2 ≤ q.2)) {i j : Nat} (hij : i ≤ j)
    (hj : j < s.length) :
    (s.getD i ("", 0)).2 ≤ (s.getD j ("", 0)).2 := by
  rcases Nat.lt_or_ge i j with hlt | hge
  · have hi : i < s.length := lt_trans hlt hj
    rw [List.getD_eq_get s _ hi, List.getD_eq_get s _ hj]
    exact List.pairwise_iff_get.1 hs ⟨i, hi⟩ ⟨j, hj⟩ hlt
  · have : i = j := le_antisymm hij hge
    subst this; exact le_refl _

/-- C7: for every input text, the line-index spans that `detect_sections`
assigns to the sorted heading matches are pairwise non-overlapping: each
span runs from the line after its heading to the line before the next
heading match (or end of document), so no document line lies in the bodies
of two different matches. -/
theorem detect_sections_spans_disjoint (t : String) (a b j : Nat)
    (hab : a < b) (hb : b < (sortedSpansOf t).length)
    (hjb : (spanBounds (splitlinesL t.data) (sortedSpansOf t) b).1 ≤ j ∧
           j < (spanBounds (splitlinesL t.data) (sortedSpansOf t) b).2) :
    ¬ ((spanBounds (splitlinesL t.data) (sortedSpansOf t) a).1 ≤ j ∧
       j < (spanBounds (splitlinesL t.data) (sortedSpansOf t) a).2) := by
  rintro ⟨hja1, hja2⟩
  have ha1 : a + 1 < (sortedSpansOf t).length := by omega
  have hend : (spanBounds (splitlinesL t.data) (sortedSpansOf t) a).2 =
      ((sortedSpansOf t).getD (a + 1) ("", 0)).2 := by
    simp only [spanBounds, List.get?_eq_get ha1, List.getD_eq_get _ _ ha1]
  have hmono : ((sortedSpansOf t).getD (a + 1) ("", 0)).2 ≤
      ((sortedSpansOf t).getD b ("", 0)).2 :=
    sorted_getD_mono (sortByLine_pairwise _) (by omega) hb
  have hstart : (spanBounds (splitlinesL t.data) (sortedSpansOf t) b).1 =
      ((sortedSpansOf t).getD b ("", 0)).2 + 1 := rfl
  omega

/-! ## C6: totality of `detect_sections` over the seven keys -/

theorem updAssoc_keys (m : List (String × String)) (k v : String) :
    (updAssoc m k v).map Prod.fst = m.map Prod.fst := by
  simp only [updAssoc, List.map_map]
  apply List.map_congr_left
  intro p _
  by_cases h : p.1 = k <;> simp [Function.comp, h]

theorem buildStep_eq (lines : List (List Char)) (spans : List (String × Nat))
    (m : List (String × String)) (e : Nat × (String × Nat)) :
    buildStep lines spans m e =
      updAssoc m e.2.1
        (if lookupD m e.2.1 ≠ "" then
          lookupD m e.2.1 ++ "\n\n" ++
            (⟨pyStrip (joinNL ((lines.drop (spanBounds lines spans e.1).1).take
              ((spanBounds lines spans e.1).2 - (spanBounds lines spans e.1).1)))⟩ : String)
         else
          ⟨pyStrip (joinNL ((lines.drop (spanBounds lines spans e.1).1).take
            ((spanBounds lines spans e.1).2 - (spanBounds lines spans e.1).1)))⟩) := rfl

theorem buildFold_keys (lines : List (List Char)) (spans : List (String × Nat)) :
    ∀ (es : List (Nat × (String × Nat))) (m : List (String × String)),
      (es.foldl (buildStep lines spans) m).map Prod.fst = m.map Prod.fst
  | [], _ => rfl
  | e :: es, m => by
    rw [List.foldl_cons, buildFold_keys lines spans es, buildStep_eq, updAssoc_keys]

theorem lookup_updAssoc_ne {m : List (String × String)} {k k' v : String}
    (h : k ≠ k') : (updAssoc m k' v).lookup k = m.lookup k := by
  induction m with
  | nil => rfl
  | cons p m ih =>
    have hkk' : (k == k') = false := beq_eq_false_iff_ne.2 h
    simp only [updAssoc, List.map_cons]
    by_cases hp : p.1 = k'
    · rw [if_pos hp]
      show List.lookup k ((k', v) :: _) = _
      cases p with
      | mk a b =>
        simp only [List.lookup, hkk']
        have : (k == a) = false := by rw [show a = k' from hp]; exact hkk'
        simp only [this]
        exact ih
    · rw [if_neg hp]
      cases p with
      | mk a b =>
        simp only [List.lookup]
        rcases hka : k == a with _ | _
        · simp only; exact ih
        · simp only

theorem lookup_buildFold_ne (lines : List (List Char)) (spans : List (String × Nat)) :
    ∀ (es : List (Nat × (String × Nat))) (m : List (String × String)) (k : String),
      (∀ e ∈ es, e.2.1 ≠ k) →
      (es.foldl (buildStep lines spans) m).lookup k = m.lookup k
  | [], _, _, _ => rfl
  | e :: es, m, k, h => by
    rw [List.foldl_cons,
      lookup_buildFold_ne lines spans es _ k (fun e' he' => h e' (List.mem_cons_of_mem _ he')),
      buildStep_eq,
      lookup_updAssoc_ne (fun hk => h e (List.mem_cons_self _ _) hk.symm)]

theorem snd_mem_of_mem_enum {α : Type} {e : Nat × α} {l : List α}
    (h : e ∈ l.enum) : e.2 ∈ l := by
  cases e with
  | mk i x =>
    obtain ⟨-, hi, hx⟩ := List.mem_enumFrom h
    rw [hx]
    exact List.getElem_mem _

/-- C6: `detect_sections` is total over the seven-section key set: for every
input (the empty string included) the returned mapping has exactly the keys
summary, experience, education, skills, certifications, projects and
achievements, in that order, and every section for which no heading match
was recorded is bound to the empty string (in particular the all-empty
mapping when no heading is found at all). -/
theorem detect_sections_total (t : String) :
    (detectSections t).map Prod.fst =
      ["summary", "experience", "education", "skills", "certifications",
       "projects", "achievements"] ∧
    ∀ k ∈ (["summary", "experience", "education", "skills", "certifications",
        "projects", "achievements"] : List String),
      (∀ j, (k, j) ∉ headerSpansL (splitlinesL t.data)) →
      (detectSections t).lookup k = some "" := by
  have hinit : ∀ k ∈ (["summary", "experience", "education", "skills",
      "certifications", "projects", "achievements"] : List String),
      (SECTION_HEADERS.map fun kv => (kv.1, "")).lookup k = some ("" : String) := by
    decide
  constructor
  · rw [detectSections]
    by_cases hsp : (headerSpansL (splitlinesL t.data)).isEmpty = true
    · simp only [hsp, if_pos]; rfl
    · simp only [hsp]
      rw [if_neg (by simp [hsp]), buildFold_keys]
      rfl
  · intro k hk hnone
    rw [detectSections]
    by_cases hsp : (headerSpansL (splitlinesL t.data)).isEmpty = true
    · simp only [hsp, if_pos]
      exact hinit k hk
    · simp only [hsp]
      rw [if_neg (by simp [hsp]), lookup_buildFold_ne]
      · exact hinit k hk
      · intro e he hek
        apply hnone e.2.2
        have h2 : e.2 ∈ sortByLine (headerSpansL (splitlinesL t.data)) :=
          snd_mem_of_mem_enum he
        rw [mem_sortByLine] at h2
        have he2 : e.2 = (k, e.2.2) := by rw [← hek]
        rwa [he2] at h2

/-- C6 witness: on a document with no heading at all, every key (here
`"skills"`) has no recorded heading match and maps to the empty string. -/
theorem detect_sections_total_witness :
    ("skills" ∈ (["summary", "experience", "education", "skills",
        "certifications", "projects", "achievements"] : List String) ∧
     ∀ j, ("skills", j) ∉ headerSpansL (splitlinesL (String.data "just a plain paragraph"))) ∧
    (detectSections "just a plain paragraph").lookup "skills" = some "" := by
  have hsp : headerSpansL (splitlinesL (String.data "just a plain paragraph")) = [] := by
    decide
  have hmem : "skills" ∈ (["summary", "experience", "education", "skills",
      "certifications", "projects", "achievements"] : List String) := by decide
  have hnone : ∀ j, ("skills", j) ∉
      headerSpansL (splitlinesL (String.data "just a plain paragraph")) := by
    intro j h; rw [hsp] at h; cases h
  exact ⟨⟨hmem, hnone⟩,
    (detect_sections_total "just a plain paragraph").2 "skills" hmem hnone⟩

/-! ## C3: which sections record a heading match for a line -/

theorem scanStep_mem {i : Nat} {n : List Char} {q : String × Nat} :
    ∀ (tbl : List (String × List String)) (acc : List (String × Nat)),
      (tbl.map Prod.fst).Nodup →
      (∀ r ∈ acc, r.2 = i → r.1 ∉ tbl.map Prod.fst) →
      (q ∈ scanStep tbl acc i n ↔
        q ∈ acc ∨ (q.2 = i ∧
          q.1 ∈ (tbl.filter fun kv => kv.2.any (variantMatches n)).map Prod.fst))
  | [], acc, _, _ => by simp [scanStep]
  | kv :: tbl, acc, hnd, hacc => by
    rw [List.map_cons, List.nodup_cons] at hnd
    have hstep : scanStep (kv :: tbl) acc i n =
        scanStep tbl
          (if kv.2.any (variantMatches n) then
            (if (kv.1, i) ∈ acc then acc else acc ++ [(kv.1, i)])
           else acc) i n := rfl
    by_cases hm : kv.2.any (variantMatches n) = true
    · have hded : (kv.1, i) ∉ acc := fun hin => hacc _ hin rfl (by simp)
      rw [hstep, if_pos hm, if_neg hded]
      have hacc' : ∀ r ∈ acc ++ [(kv.1, i)], r.2 = i → r.1 ∉ tbl.map Prod.fst := by
        intro r hr hri
        rcases List.mem_append.1 hr with hr | hr
        · intro hmem
          exact hacc r hr hri (by rw [List.map_cons]; exact List.mem_cons_of_mem _ hmem)
        · simp only [List.mem_singleton] at hr
          subst hr
          exact hnd.1
      rw [scanStep_mem tbl _ hnd.2 hacc']
      simp only [List.mem_append, List.mem_singleton, List.filter_cons, hm, if_true,
        List.map_cons, List.mem_cons, Prod.ext_iff]
      tauto
    · have hacc' : ∀ r ∈ acc, r.2 = i → r.1 ∉ tbl.map Prod.fst := fun r hr hri hmem =>
        hacc r hr hri (by rw [List.map_cons]; exact List.mem_cons_of_mem _ hmem)
      rw [hstep, if_neg hm, scanStep_mem tbl acc hnd.2 hacc', List.filter_cons]
      simp only [hm]
      rw [if_neg (by simp)]

theorem headerSpansAux_mem {k : String} {i : Nat} :
    ∀ (ls : List (List Char)) (i0 : Nat) (acc : List (String × Nat)),
      (∀ r ∈ acc, r.2 < i0) →
      ((k, i) ∈ headerSpansAux i0 ls acc ↔
        (k, i) ∈ acc ∨
        (i0 ≤ i ∧ ∃ line, ls.get? (i - i0) = some line ∧
          (lowerL (pyStrip line)).isEmpty = false ∧
          k ∈ lineKeys (lowerL (pyStrip line))))
  | [], i0, acc, hacc => by
    rw [headerSpansAux]
    constructor
    · exact Or.inl
    · rintro (h | ⟨-, line, hline, -⟩)
      · exact h
      · cases hline
  | line :: rest, i0, acc, hacc => by
    have hscanpre : ∀ r ∈ acc, r.2 = i0 → r.1 ∉ SECTION_HEADERS.map Prod.fst :=
      fun r hr hri => absurd hri (Nat.ne_of_lt (hacc r hr))
    show (k, i) ∈ headerSpansAux (i0 + 1) rest
        (if (lowerL (pyStrip line)).isEmpty then acc
         else scanStep SECTION_HEADERS acc i0 (lowerL (pyStrip line))) ↔ _
    by_cases hempty : (lowerL (pyStrip line)).isEmpty = true
    · rw [if_pos hempty,
        headerSpansAux_mem rest (i0 + 1) acc (fun r hr => Nat.lt_succ_of_lt (hacc r hr))]
      constructor
      · rintro (h | ⟨h1, line', hl, hP⟩)
        · exact Or.inl h
        · refine Or.inr ⟨by omega, line', ?_, hP⟩
          rw [show i - i0 = (i - (i0 + 1)) + 1 by omega, List.get?_cons_succ]
          exact hl
      · rintro (h | ⟨h1, line', hl, hP1, hP2⟩)
        · exact Or.inl h
        · rcases Nat.eq_or_lt_of_le h1 with heq | hlt
          · exfalso
            rw [← heq, Nat.sub_self, List.get?_cons_zero] at hl
            cases hl
            rw [hempty] at hP1
            cases hP1
          · refine Or.inr ⟨by omega, line', ?_, hP1, hP2⟩
            rw [show i - i0 = (i - (i0 + 1)) + 1 by omega, List.get?_cons_succ] at hl
            exact hl
    · have hempty' : (lowerL (pyStrip line)).isEmpty = false := by
        simpa using hempty
      have hacc' : ∀ r ∈ scanStep SECTION_HEADERS acc i0 (lowerL (pyStrip line)),
          r.2 < i0 + 1 := by
        intro r hr
        rw [scanStep_mem SECTION_HEADERS acc (by decide) hscanpre] at hr
        rcases hr with hr | ⟨hr2, -⟩
        · exact Nat.lt_succ_of_lt (hacc r hr)
        · omega
      rw [if_neg hempty, headerSpansAux_mem rest (i0 + 1) _ hacc',
        scanStep_mem SECTION_HEADERS acc (by decide) hscanpre]
      constructor
      · rintro ((h | ⟨hi0, hk⟩) | ⟨h1, line', hl, hP1, hP2⟩)
        · exact Or.inl h
        · simp only at hi0
          refine Or.inr ⟨by omega, line, ?_, hempty', hk⟩
          rw [hi0, Nat.sub_self, List.get?_cons_zero]
        · refine Or.inr ⟨by omega, line', ?_, hP1, hP2⟩
          rw [show i - i0 = (i - (i0 + 1)) + 1 by omega, List.get?_cons_succ]
          exact hl
      · rintro (h | ⟨h1, line', hl, hP1, hP2⟩)
        · exact Or.inl (Or.inl h)
        · rcases Nat.eq_or_lt_of_le h1 with heq | hlt
          · rw [← heq, Nat.sub_self, List.get?_cons_zero] at hl
            cases hl
            exact Or.inl (Or.inr ⟨by omega, hP2⟩)
          · refine Or.inr ⟨by omega, line', ?_, hP1, hP2⟩
            rw [show i - i0 = (i - (i0 + 1)) + 1 by omega, List.get?_cons_succ] at hl
            exact hl

/-- C3 counterexample: on the single-line document `"achievements"` the
header-matching loop records the line for BOTH the certifications section
(whose synonym list contains `"achievements"`) and the achievements section:
the `break` exits only the inner synonym loop, so the later section also
records a match for the same line, contradicting first-matching-section-wins. -/
theorem header_match_not_exclusive :
    headerSpansL (splitlinesL (String.data "achievements")) =
      [("certifications", 0), ("achievements", 0)] := by decide

/-- C3 (amended): for every non-blank line, EVERY section whose synonym list
matches the line (first matching synonym within the section, via the inner
break) records a heading match `(section, line_index)`, in fixed table
order; blank or unmatched lines record nothing, and each pair is recorded at
most once. -/
theorem header_spans_mem_iff (lines : List (List Char)) (k : String) (i : Nat) :
    (k, i) ∈ headerSpansL lines ↔
      ∃ line, lines.get? i = some line ∧
        (lowerL (pyStrip line)).isEmpty = false ∧
        k ∈ lineKeys (lowerL (pyStrip line)) := by
  rw [headerSpansL, headerSpansAux_mem lines 0 [] (by intro r hr; cases hr)]
  simp only [List.not_mem_nil, false_or, Nat.zero_le, true_and, Nat.sub_zero]

/-- C3 witness: instantiating the membership characterization on the
document `"achievements"` shows the achievements section records a match for
line 0 (even though certifications already matched it). -/
theorem header_spans_mem_iff_witness :
    ("achievements", 0) ∈ headerSpansL (splitlinesL (String.data "achievements")) := by
  rw [header_spans_mem_iff]
  exact ⟨String.data "achievements", by decide, by decide, by decide⟩

/-- C7 witness: in a two-heading document the education span is the single
line between the headings and the skills span is the final line; line 3 lies
in the skills span and therefore not in the education span. -/
theorem detect_sections_spans_disjoint_witness :
    (0 < 1 ∧ 1 < (sortedSpansOf "Education\nMIT\nSkills\nPython").length ∧
     (spanBounds (splitlinesL (String.data "Education\nMIT\nSkills\nPython"))
        (sortedSpansOf "Education\nMIT\nSkills\nPython") 1).1 ≤ 3 ∧
     3 < (spanBounds (splitlinesL (String.data "Education\nMIT\nSkills\nPython"))
        (sortedSpansOf "Education\nMIT\nSkills\nPython") 1).2) ∧
    ¬ ((spanBounds (splitlinesL (String.data "Education\nMIT\nSkills\nPython"))
        (sortedSpansOf "Education\nMIT\nSkills\nPython") 0).1 ≤ 3 ∧
       3 < (spanBounds (splitlinesL (String.data "Education\nMIT\nSkills\nPython"))
        (sortedSpansOf "Education\nMIT\nSkills\nPython") 0).2) :=
  ⟨⟨by decide, by decide, by decide, by decide⟩,
   detect_sections_spans_disjoint _ 0 1 3 (by decide) (by decide)
     ⟨by decide, by decide⟩⟩

/-! ## The date normalizer `_normalize_date`
(certification_extraction_service.py 38-109) -/

def isSepDash (c : Char) : Bool := c = '/' || c = '-'

/-- Integer value of a digit string, `int(month)`. -/
def digitsToNat (l : List Char) : Nat :=
  l.foldl (fun n c => n * 10 + (c.toNat - 48)) 0

/-- Python `month.zfill(2)` on a 1–2 digit group. -/
def zfill2 (d : List Char) : List Char :=
  if d.length = 1 then '0' :: d else d

/-- The trailing `\s*:?\s*` of the prefix-stripping regex. -/
def consumeSep (l : List Char) : List Char :=
  let l1 := l.dropWhile isPyWs
  let l2 := match l1 with
    | ':' :: r => r
    | _ => l1
  l2.dropWhile isPyWs

/-- `re.sub(r'^(issued|completed|earned|obtained|received|date[:]?)\s*:?\s*',
'', date_str, flags=re.IGNORECASE)`: the alternation is tried in order (no
alternative is a prefix of another), `date[:]?` greedily takes one colon,
and the whitespace/colon tail is consumed greedily. -/
def stripDatePrefixL (l : List Char) : List Char :=
  let ll := lowerL l
  let alts : List String := ["issued", "completed", "earned", "obtained", "received"]
  match alts.find? (fun a => isPrefixL a.data ll) with
  | some a => consumeSep (l.drop a.length)
  | none =>
    if isPrefixL "date".data ll then
      consumeSep (match l.drop 4 with
        | ':' :: r => r
        | r => r)
    else l

/-- The month-name table of `_normalize_date`, in Python dict insertion
order; the duplicate key `'may'` of the source dict literal keeps its first
position. -/
def monthNames : List (String × String) := [
  ("january", "01"), ("february", "02"), ("march", "03"), ("april", "04"),
  ("may", "05"), ("june", "06"), ("july", "07"), ("august", "08"),
  ("september", "09"), ("october", "10"), ("november", "11"), ("december", "12"),
  ("jan", "01"), ("feb", "02"), ("mar", "03"), ("apr", "04"),
  ("jun", "06"), ("jul", "07"), ("aug", "08"),
  ("sep", "09"), ("sept", "09"), ("oct", "10"), ("nov", "11"), ("dec", "12")
]

/-- the anchored regex `(\d{1,2})`, a `'/'` or `'-'` separator, `(\d{4})`, end: the leading digit run must
have length 1–2 (a longer run cannot backtrack into a separator), then a
separator, then exactly four digits to the end. Returns (month, year). -/
def matchMMYYYY (l : List Char) : Option (List Char × List Char) :=
  let d := l.takeWhile Char.isDigit
  if 1 ≤ d.length ∧ d.length ≤ 2 then
    match l.drop d.length with
    | s :: rest =>
      if isSepDash s ∧ rest.length = 4 ∧ rest.all Char.isDigit then some (d, rest)
      else none
    | [] => none
  else none

/-- the anchored regex `(\d{4})`, a `'-'` or `'/'` separator, `(\d{1,2})`, end. Returns (year, month). -/
def matchISO (l : List Char) : Option (List Char × List Char) :=
  match l with
  | y1 :: y2 :: y3 :: y4 :: s :: rest =>
    if (y1.isDigit && y2.isDigit && y3.isDigit && y4.isDigit) = true ∧ isSepDash s ∧
        1 ≤ rest.length ∧ rest.length ≤ 2 ∧ rest.all Char.isDigit
    then some ([y1, y2, y3, y4], rest)
    else none
  | _ => none

/-- `re.search(r'\b(19|20)\d{2}\b', l)`: leftmost four-digit year starting
with 19 or 20, bounded by non-word characters (the previous character is
threaded through the scan). -/
def findYear : Option Char → List Char → Option (List Char)
  | prev, a :: b :: c :: d :: rest =>
    let prevOk : Bool := match prev with
      | none => true
      | some pc => !(isWordChar pc)
    let nextOk : Bool := match rest with
      | [] => true
      | e :: _ => !(isWordChar e)
    if (prevOk && ((a == '1' && b == '9') || (a == '2' && b == '0')) &&
        c.isDigit && d.isDigit && nextOk) = true
    then some [a, b, c, d]
    else findYear (some a) (b :: c :: d :: rest)
  | _, _ => none

/-- The month-name loop: for each table entry in order, if the name occurs
in the lowercased string, search the original string for a year; without a
year the loop continues with the next name. -/
def monthScan (orig lowered : List Char) : List (String × String) → Option (List Char)
  | [] => none
  | (name, num) :: rest =>
    if containsSub name.data lowered then
      match findYear none orig with
      | some y => some (num.data ++ '/' :: y)
      | none => monthScan orig lowered rest
    else monthScan orig lowered rest

/-- the anchored regex `\d{1,2}`, separator, `(\d{1,2})`, separator, `(\d{4})`, end (separators are `'/'` or `'-'`). Returns (month, year). -/
def matchDDMMYYYY (l : List Char) : Option (List Char × List Char) :=
  let d1 := l.takeWhile Char.isDigit
  if 1 ≤ d1.length ∧ d1.length ≤ 2 then
    match l.drop d1.length with
    | s1 :: rest1 =>
      if isSepDash s1 then
        let d2 := rest1.takeWhile Char.isDigit
        if 1 ≤ d2.length ∧ d2.length ≤ 2 then
          match rest1.drop d2.length with
          | s2 :: rest2 =>
            if isSepDash s2 ∧ rest2.length = 4 ∧ rest2.all Char.isDigit
            then some (d2, rest2)
            else none
          | [] => none
        else none
      else none
    | [] => none
  else none

/-- One-digit attempt of the embedded month-year search pattern. -/
def matchEmbOne (l : List Char) : Option (List Char × List Char) :=
  match l with
  | a :: s :: y1 :: y2 :: y3 :: y4 :: _ =>
    if (a.isDigit && isSepDash s && y1.isDigit && y2.isDigit && y3.isDigit &&
        y4.isDigit) = true
    then some ([a], [y1, y2, y3, y4])
    else none
  | _ => none

/-- The unanchored month-year search pattern `(\d{1,2})`, separator,
`(\d{4})` at one position: the greedy
two-digit month is tried first, then the one-digit month. -/
def matchEmbAt (l : List Char) : Option (List Char × List Char) :=
  match l with
  | a :: b :: s :: y1 :: y2 :: y3 :: y4 :: _ =>
    if (a.isDigit && b.isDigit && isSepDash s && y1.isDigit && y2.isDigit &&
        y3.isDigit && y4.isDigit) = true
    then some ([a, b], [y1, y2, y3, y4])
    else matchEmbOne l
  | _ => matchEmbOne l

/-- Leftmost embedded `MM/YYYY` match. -/
def findEmb : List Char → Option (List Char × List Char)
  | [] => none
  | l@(_ :: rest) =>
    match matchEmbAt l with
    | some r => some r
    | none => findEmb rest

def monthOk (m : List Char) : Prop :=
  1 ≤ digitsToNat m ∧ digitsToNat m ≤ 12

instance (m : List Char) : Decidable (monthOk m) := by
  unfold monthOk; infer_instance

def tryMMYYYY (l : List Char) : Option (List Char) :=
  match matchMMYYYY l with
  | some (m, y) => if monthOk m then some (zfill2 m ++ '/' :: y) else none
  | none => none

def tryISO (l : List Char) : Option (List Char) :=
  match matchISO l with
  | some (y, m) => if monthOk m then some (zfill2 m ++ '/' :: y) else none
  | none => none

def tryMonthName (l : List Char) : Option (List Char) :=
  monthScan l (lowerL l) monthNames

def tryDDMMYYYY (l : List Char) : Option (List Char) :=
  match matchDDMMYYYY l with
  | some (m, y) => if monthOk m then some (zfill2 m ++ '/' :: y) else none
  | none => none

def tryYear (l : List Char) : Option (List Char) :=
  (findYear none l).map fun y => '0' :: '1' :: '/' :: y

def tryEmb (l : List Char) : Option (List Char) :=
  match findEmb l with
  | some (m, y) => if monthOk m then some (zfill2 m ++ '/' :: y) else none
  | none => none

/-- `_normalize_date` of `certification_extraction_service.py` on character
lists: strip, remove the issued/completed/… prefix, strip again, then try
the six patterns in precedence order; each pattern that matches with an
out-of-range month yields nothing and the next pattern is tried. -/
def normalizeDateL (l : List Char) : Option (List Char) :=
  let s := pyStrip (stripDatePrefixL (pyStrip l))
  ((((tryMMYYYY s).orElse fun _ => tryISO s).orElse fun _ =>
      tryMonthName s).orElse fun _ => tryDDMMYYYY s).orElse fun _ =>
    (tryYear s).orElse fun _ => tryEmb s

/-- `_normalize_date`: `None` and the empty string normalize to `None`;
otherwise the pattern cascade runs and `None` is returned when no pattern
matches. -/
def normalizeDate (d : Option String) : Option String :=
  match d with
  | none => none
  | some s =>
    if s = "" then none
    else (normalizeDateL s.data).map fun l => (⟨l⟩ : String)

/-- C8: the date normalizer tries MM/YYYY, then ISO YYYY-MM, then
month-name+year, then DD/MM/YYYY, then bare year (defaulting the month to
January), then embedded MM/YYYY, in that order (the structure of
`normalizeDateL`), with the month range-checked 1–12; concretely
"March 2023" ↦ "03/2023", "2023-03" ↦ "03/2023", "15/03/2023" ↦ "03/2023",
"2023" ↦ "01/2023", "not a date" ↦ absent, and "13/2023" (out-of-range
month rejected by the first pattern) falls through to the bare-year pattern
giving "01/2023". -/
theorem normalize_date_roundtrips :
    normalizeDate (some "March 2023") = some "03/2023" ∧
    normalizeDate (some "2023-03") = some "03/2023" ∧
    normalizeDate (some "15/03/2023") = some "03/2023" ∧
    normalizeDate (some "2023") = some "01/2023" ∧
    normalizeDate (some "not a date") = none ∧
    normalizeDate (some "13/2023") = some "01/2023" := by decide

/-! ## Data model (models.py) -/

structure Contacts where
  first_name : Option String := none
  last_name : Option String := none
  desired_job_title : Option String := none
  email : Option String := none
  phone : Option String := none
  location : Option String := none
  country : Option String := none
  city : Option String := none
  address : Option String := none
  post_code : Option String := none
  leetcode_url : Option String := none
  github_url : Option String := none
  linkedin_url : Option String := none
deriving DecidableEq

structure ExperienceEntry where
  job_title : Option String := none
  employer : Option String := none
  location : Option String := none
  start_date : Option String := none
  end_date : Option String := none
  description : Option String := none
deriving DecidableEq

structure EducationEntry where
  school_name : Option String := none
  degree : Option String := none
  field_of_study : Option String := none
  location : Option String := none
  start_date : Option String := none
  end_date : Option String := none
  description : Option String := none
deriving DecidableEq

structure Skills where
  technical : List String := []
  soft : List String := []
  tools : List String := []
  languages : List String := []
deriving DecidableEq

structure ProjectEntry where
  project_name : Option String := none
  description : Option String := none
  technologies : List String := []
  link : Option String := none
deriving DecidableEq

structure CertificateEntry where
  certificate_name : Option String := none
  issuing_organization : Option String := none
  date_of_completion : Option String := none
  credential_id : Option String := none
  credential_url : Option String := none
deriving DecidableEq

structure ResumeData where
  contacts : Option Contacts := none
  experience : Option (List ExperienceEntry) := none
  education : Option (List EducationEntry) := none
  skills : Option Skills := none
  projects : Option (List ProjectEntry) := none
  certifications : Option (List CertificateEntry) := none
  achievements : Option (List String) := none
  summary : Option String := none
deriving DecidableEq

/-- The JSON object shape requested from the structured extractor by
`_parse_personal_details` (well-typed fields; an ill-shaped response is the
`Except.error` case of the oracle). -/
structure PersonalJson where
  full_name : Option String := none
  desired_job_title : Option String := none
  email : Option String := none
  phone : Option String := none
  location : Option String := none
  country : Option String := none
  city : Option String := none
  address : Option String := none
  post_code : Option String := none
  linkedin_url : Option String := none
  github_url : Option String := none
  leetcode_url : Option String := none

/-- The external OpenRouter structured extractor, one response function per
field group.  `personal` models `_call_openrouter` + `_extract_json_from_response`
inside `_parse_personal_details` (`Except.error` is the ValueError path);
the other fields fold the per-section LLM call and its deterministic
response post-processing into one opaque function, since the claims under
verification depend only on the internal gating around these calls. -/
structure Oracle where
  personal : String → Except Unit PersonalJson
  experienceOf : String → Option (List ExperienceEntry)
  educationOf : String → Option (List EducationEntry)
  skillsOf : String → Option Skills
  projectsOf : String → Option (List ProjectEntry)
  certificationsOf : String → Option (List CertificateEntry)
  achievementsOf : String → Option (List String)
  summaryOf : String → Option String

/-! ## Python truthiness and small string helpers -/

/-- Python truthiness of a str-or-None value. -/
def truthy : Option String → Bool
  | none => false
  | some s => !(s == "")

/-- Python `x or y` on str-or-None values. -/
def orTruthy (a b : Option String) : Option String :=
  if truthy a then a else b

/-- Python `str.split()`: split on whitespace runs, dropping empties. -/
def pySplitAux : List Char → List Char → List (List Char)
  | [], acc => if acc.isEmpty then [] else [acc.reverse]
  | c :: rest, acc =>
    if isPyWs c then
      if acc.isEmpty then pySplitAux rest [] else acc.reverse :: pySplitAux rest []
    else pySplitAux rest (c :: acc)

def pySplit (l : List Char) : List (List Char) :=
  pySplitAux l []

/-- Python `' '.join(ws)`. -/
def joinSp : List (List Char) → List Char
  | [] => []
  | [w] => w
  | w :: w2 :: rest => w ++ ' ' :: joinSp (w2 :: rest)

/-- Python `text.replace(pat, repl)` for non-empty `pat`: left-to-right
non-overlapping substring replacement (fuel-driven scan; the fuel is the
text length, enough since every step consumes at least one character). -/
def replaceAllSub (pat repl : List Char) : Nat → List Char → List Char
  | 0, l => l
  | _ + 1, [] => []
  | fuel + 1, c :: rest =>
    if isPrefixL pat (c :: rest) ∧ ¬ pat.isEmpty then
      repl ++ replaceAllSub pat repl fuel ((c :: rest).drop pat.length)
    else c :: replaceAllSub pat repl fuel rest

def pyReplace (s pat repl : String) : String :=
  ⟨replaceAllSub pat.data repl.data s.data.length s.data⟩

/-! ## Contact validators (nlp_parsing_service.py 36-148) -/

/-- The regex class `[a-zA-Z0-9._%+-]` (email local part). -/
def isLocalChar (c : Char) : Bool :=
  c.isAlpha || c.isDigit || c = '.' || c = '_' || c = '%' || c = '+' || c = '-'

/-- The regex class `[a-zA-Z0-9.-]` (email domain part). -/
def isDomChar (c : Char) : Bool :=
  c.isAlpha || c.isDigit || c = '.' || c = '-'

def startsTwoAlpha : List Char → Bool
  | a :: b :: _ => a.isAlpha && b.isAlpha
  | _ => false

/-- Scan after the `'@'`: `EMAIL_REGEX` matches (unanchored at the end) iff
some dot is preceded by a non-empty domain-class run and followed by at
least two letters.  `consumed` records whether a domain character has been
consumed before the candidate dot. -/
def domWalk : Bool → List Char → Bool
  | _, [] => false
  | consumed, c :: rest =>
    if c = '.' ∧ consumed = true ∧ startsTwoAlpha rest = true then true
    else if isDomChar c then domWalk true rest
    else false

/-- `EMAIL_REGEX.match(l)`: does a match of
`[a-zA-Z0-9._%+-]+@[a-zA-Z0-9.-]+\.[a-zA-Z]{2,}` start at position 0?
The local part must be the maximal local-class run (a shorter run would be
followed by a local-class character, never `'@'`). -/
def emailPrefixB (l : List Char) : Bool :=
  let loc := l.takeWhile isLocalChar
  if loc.isEmpty then false
  else
    match l.drop loc.length with
    | '@' :: rest => domWalk false rest
    | _ => false

/-- Whole-string membership in the strict local@domain.tld grammar: the
claim-side reading of "matches the address grammar (the whole string)".
After the dot chosen as the final separator, the rest of the string must be
entirely letters (at least two). -/
def domWalkFull : Bool → List Char → Bool
  | _, [] => false
  | consumed, c :: rest =>
    if isDomChar c then
      ((c == '.') && consumed && decide (2 ≤ rest.length) && rest.all Char.isAlpha) ||
        domWalkFull true rest
    else false

def emailFullB (l : List Char) : Bool :=
  let loc := l.takeWhile isLocalChar
  if loc.isEmpty then false
  else
    match l.drop loc.length with
    | '@' :: rest => domWalkFull false rest
    | _ => false

/-- `_validate_email`: falsy input is rejected, the candidate is stripped,
matched (prefix-anchored only) against `EMAIL_REGEX`, and returned whole,
lower-cased, on success. -/
def validateEmail (e : Option String) : Option String :=
  match e with
  | none => none
  | some s =>
    if s = "" then none
    else
      let st := pyStrip s.data
      if emailPrefixB st then some ⟨lowerL st⟩ else none

/-- The regex class `[\s\-()]` removed by `_clean_phone`. -/
def isPhoneStripChar (c : Char) : Bool :=
  isPyWs c || c = '-' || c = '(' || c = ')'

/-- `_clean_phone`: strip, then remove all whitespace, dashes, brackets. -/
def cleanPhoneL (l : List Char) : List Char :=
  (pyStrip l).filter fun c => !(isPhoneStripChar c)

/-- `re.match(r'^\+?\d{10,15}$', l)`: an optional leading `'+'`, then 10 to
15 digits, end of string. -/
def phoneFullB (l : List Char) : Bool :=
  match l with
  | '+' :: ds => ds.all Char.isDigit && decide (10 ≤ ds.length) && decide (ds.length ≤ 15)
  | ds => ds.all Char.isDigit && decide (10 ≤ ds.length) && decide (ds.length ≤ 15)

/-- `_validate_phone`. -/
def validatePhone (p : Option String) : Option String :=
  match p with
  | none => none
  | some s =>
    if s = "" then none
    else
      let c := cleanPhoneL s.data
      if phoneFullB c then some ⟨c⟩ else none

/-- `POSTCODE_INDIA.match` / `POSTCODE_USA.match` on a stripped candidate:
`\b\d{n}\b` anchored by `.match` at position 0 requires `n` leading digits
followed by a word boundary; trailing non-word text is accepted. -/
def postcodeBoundary (n : Nat) (l : List Char) : Bool :=
  decide (n ≤ l.length) && (l.take n).all Char.isDigit &&
    (match l.drop n with
     | [] => true
     | c :: _ => !(isWordChar c))

/-- The postcode validation of `_parse_personal_details` (lines 479-483):
a truthy candidate whose stripped value fails both national patterns
becomes `None`; a passing candidate is kept as the ORIGINAL value; a falsy
candidate (`None` or `""`) is left untouched. -/
def filterPostcode (pc : Option String) : Option String :=
  match pc with
  | none => none
  | some v =>
    if v = "" then some v
    else
      let cl := pyStrip v.data
      if postcodeBoundary 6 cl || postcodeBoundary 5 cl then some v else none

/-! ## Regex `findall` scanners for the fallback extractors -/

/-- Leftmost non-overlapping scan: try a match at every position, emit it
and resume after its end.  The fuel (the input length) strictly exceeds the
number of scan steps, since every step consumes at least one character. -/
def scanAll (matchAt : List Char → Option (List Char × List Char)) :
    Nat → List Char → List (List Char)
  | 0, _ => []
  | _ + 1, [] => []
  | fuel + 1, c :: rest =>
    match matchAt (c :: rest) with
    | some (m, r) => m :: scanAll matchAt fuel r
    | none => scanAll matchAt fuel rest

/-- Backtracking of `EMAIL_REGEX`'s greedy domain part: inside the maximal
domain-class run `D` after the `'@'`, find the LARGEST dot position `k ≥ 1`
followed by at least two letters; `a` is the maximal letter run after the
dot (the greedy `[a-zA-Z]{2,}`). -/
def dotSearch (D r2 : List Char) : Nat → Option (Nat × List Char)
  | 0 => none
  | j + 1 =>
    let a := (r2.drop (j + 2)).takeWhile Char.isAlpha
    if D.get? (j + 1) = some '.' ∧ 2 ≤ a.length then some (j + 1, a)
    else dotSearch D r2 j

/-- One attempted `EMAIL_REGEX` match at the head of `l`, returning the
matched substring and the remainder of the text. -/
def emailMatchAt (l : List Char) : Option (List Char × List Char) :=
  let loc := l.takeWhile isLocalChar
  if loc.isEmpty then none
  else
    match l.drop loc.length with
    | c :: r2 =>
      if c = '@' then
        let D := r2.takeWhile isDomChar
        match dotSearch D r2 (D.length - 1) with
        | some (k, a) =>
          some (loc ++ '@' :: (D.take k ++ '.' :: a), r2.drop (k + 1 + a.length))
        | none => none
      else none
    | [] => none

def emailFindAll (l : List Char) : List (List Char) :=
  scanAll emailMatchAt l.length l

/-- The regex class `[\d\s().-]` of `PHONE_REGEX`. -/
def isPhoneClassChar (c : Char) : Bool :=
  c.isDigit || isPyWs c || c = '(' || c = ')' || c = '.' || c = '-'

/-- Backtracking of `PHONE_REGEX`'s greedy `{7,}`: the largest `m ≥ 7`
inside the maximal class run such that the character at offset `m` is a
digit (the final `\d` of the pattern). -/
def phoneBack (run : List Char) : Nat → Option Nat
  | 0 => none
  | j + 1 =>
    if 7 ≤ j + 1 ∧ (match run.get? (j + 1) with
        | some c => c.isDigit
        | none => false) = true
    then some (j + 1)
    else phoneBack run j

/-- One attempted `PHONE_REGEX` match `(\+?\d[\d\s().-]{7,}\d)` at the head
of `l`. -/
def phoneMatchAt (l : List Char) : Option (List Char × List Char) :=
  let pl : List Char × List Char :=
    match l with
    | '+' :: r => (['+'], r)
    | _ => ([], l)
  match pl.2 with
  | d0 :: l2 =>
    if d0.isDigit then
      let run := l2.takeWhile isPhoneClassChar
      match phoneBack run (run.length - 1) with
      | some m => some (pl.1 ++ d0 :: run.take (m + 1), l2.drop (m + 1))
      | none => none
    else none
  | [] => none

def phoneFindAll (l : List Char) : List (List Char) :=
  scanAll phoneMatchAt l.length l

/-- Case-insensitive character comparison (the `re.IGNORECASE` flag). -/
def charCI (a b : Char) : Bool :=
  a.toLower == b.toLower

def isPrefixCI : List Char → List Char → Bool
  | [], _ => true
  | _ :: _, [] => false
  | a :: as, b :: bs => charCI a b && isPrefixCI as bs

/-- One attempted match of `https?://(?:www\.)?HOST[^\s\x29]+` at the head
of `l` (case-insensitive); `host` includes the trailing slash, e.g.
`"github.com/"`. -/
def urlMatchAt (host : List Char) (l : List Char) : Option (List Char × List Char) :=
  if isPrefixCI ("http".data) l then
    let afterHttp := l.drop 4
    let schemeRest : Option (List Char × Nat) :=
      if (match afterHttp with
          | c :: _ => charCI c 's'
          | [] => false) = true ∧ isPrefixL "://".data (afterHttp.drop 1) then
        some (afterHttp.drop 4, 8)
      else if isPrefixL "://".data afterHttp then some (afterHttp.drop 3, 7)
      else none
    match schemeRest with
    | some (afterScheme, schemeLen) =>
      let hostRest : Option (List Char × Nat) :=
        if isPrefixCI "www.".data afterScheme ∧ isPrefixCI host (afterScheme.drop 4) then
          some (afterScheme.drop (4 + host.length), schemeLen + 4 + host.length)
        else if isPrefixCI host afterScheme then
          some (afterScheme.drop host.length, schemeLen + host.length)
        else none
      match hostRest with
      | some (tail, n) =>
        let t := tail.takeWhile fun c => !(isPyWs c || c = ')')
        if t.isEmpty then none
        else some (l.take (n + t.length), l.drop (n + t.length))
      | none => none
    | none => none
  else none

/-! ## Fallback extractors (nlp_parsing_service.py 217-301) -/

/-- The first-50-lines header region used by the fallback extractors. -/
def headerText50 (l : List Char) : List Char :=
  joinNL ((splitlinesL l).take 50)

def personalDomains : List String :=
  ["gmail", "outlook", "yahoo", "hotmail", "icloud", "protonmail"]

/-- Personal-domain preference over a non-empty match list: the first match
containing a personal domain, else the first match; lower-cased. -/
def pickEmail (found : List (List Char)) : Option (List Char) :=
  match found.find? (fun m => personalDomains.any fun d => containsSub d.data (lowerL m)) with
  | some m => some (lowerL m)
  | none => found.head?.map lowerL

/-- `_extract_email_fallback`. -/
def extractEmailFallback (l : List Char) : Option (List Char) :=
  let hm := emailFindAll (headerText50 l)
  if !hm.isEmpty then pickEmail hm
  else
    let am := emailFindAll l
    if !am.isEmpty then pickEmail am
    else none

/-- The full-text loop of `_extract_phone_fallback`: return the first
cleaned match that validates. -/
def firstValidPhone : List (List Char) → Option (List Char)
  | [] => none
  | m :: ms =>
    let ph := cleanPhoneL m
    if (validatePhone (some ⟨ph⟩)).isSome then some ph else firstValidPhone ms

/-- `_extract_phone_fallback`: clean and validate the first header-region
match only; if the header yields nothing valid, try every full-text match. -/
def extractPhoneFallback (l : List Char) : Option (List Char) :=
  match phoneFindAll (headerText50 l) with
  | m :: _ =>
    let ph := cleanPhoneL m
    if (validatePhone (some ⟨ph⟩)).isSome then some ph
    else firstValidPhone (phoneFindAll l)
  | [] => firstValidPhone (phoneFindAll l)

/-- `_extract_urls_fallback` for one provider pattern: the first full-text
match. -/
def extractUrlFallback (host : String) (l : List Char) : Option String :=
  ((scanAll (urlMatchAt host.data) l.length l).head?).map fun m => (⟨m⟩ : String)

/-! ## Name handling (nlp_parsing_service.py 42-143) -/

def JOB_TITLE_KEYWORDS : List String := [
  "engineer", "developer", "manager", "analyst", "designer", "specialist",
  "consultant", "director", "lead", "senior", "junior", "associate",
  "architect", "scientist", "researcher", "coordinator", "executive"
]

def ORG_KEYWORDS : List String := [
  "university", "college", "institute", "school", "corporation", "inc",
  "ltd", "llc", "company", "technologies", "solutions", "systems"
]

/-- `_split_name`. -/
def splitName (fn : Option String) : Option String × Option String :=
  match fn with
  | none => (none, none)
  | some s =>
    if s = "" then (none, none)
    else
      match pySplit (pyStrip s.data) with
      | [] => (none, none)
      | [w] => (some ⟨w⟩, none)
      | [w1, w2] => (some ⟨w1⟩, some ⟨w2⟩)
      | w1 :: rest => (some ⟨w1⟩, some ⟨joinSp rest⟩)

/-- The regex class `[A-Za-z\x2d\x27]` of `_is_likely_name` word checks. -/
def isNameWordChar (c : Char) : Bool :=
  c.isAlpha || c = '-' || c = '\''

/-- `_is_likely_name`. -/
def isLikelyName (s : String) : Bool :=
  let tl := lowerL s.data
  if JOB_TITLE_KEYWORDS.any (fun k => containsSub k.data tl) then false
  else if ORG_KEYWORDS.any (fun k => containsSub k.data tl) then false
  else
    match pySplit s.data with
    | [] => false
    | ws => ws.all fun w => !w.isEmpty && w.all isNameWordChar

/-! ## `_parse_personal_details` (nlp_parsing_service.py 304-561) -/

/-- The header region handed to the structured extractor: the longer of the
first 50 lines and the first 2000 characters, capped at 3000 characters. -/
def headerRegion (l : List Char) : List Char :=
  let ht := headerText50 l
  let fc := l.take 2000
  let ht2 := if ht.length < fc.length then fc else ht
  if 3000 < ht2.length then ht2.take 3000 ++ "...".data else ht2

/-- The regex-only fallback `Contacts` (used on extractor failure and as the
last-but-one resort). -/
def fallbackContacts (emailFb phoneFb githubFb leetcodeFb linkedinFb : Option String) :
    Contacts :=
  { email := emailFb, phone := phoneFb, github_url := githubFb,
    leetcode_url := leetcodeFb, linkedin_url := linkedinFb }

/-- The name triage of `_parse_personal_details` (lines 445-460). -/
def nameFromData (fn : Option String) : Option String × Option String :=
  match fn with
  | none => (none, none)
  | some fn0 =>
    if fn0 = "" then (none, none)
    else
      let fnS : String := ⟨pyStrip fn0.data⟩
      if isLikelyName fnS then splitName (some fnS)
      else if (pySplit fnS.data).length ≤ 4 ∧ ¬ (fnS.data.any Char.isDigit) then
        splitName (some fnS)
      else (none, none)

/-- The job-title normalization (lines 486-490). -/
def jobTitleFromData (djt : Option String) : Option String :=
  if truthy djt then
    djt.map fun s =>
      pyReplace (pyReplace (⟨pyStrip s.data⟩ : String) "S/W" "Software") "Engg" "Engineer"
  else djt

/-- The combined-location rebuild (lines 498-501). -/
def locationFromData (location0 city country : Option String) : Option String :=
  if ¬ truthy location0 ∧ (truthy city ∨ truthy country) then
    let parts := ([city, country].filterMap id).filter fun s => !(s == "")
    if parts.isEmpty then none else some (String.intercalate ", " parts)
  else location0

/-- The `.ok` branch of `_parse_personal_details` (lines 445-541). -/
def contactsFromData (data : PersonalJson)
    (emailFb phoneFb githubFb leetcodeFb linkedinFb : Option String) : Contacts :=
  let nm := nameFromData data.full_name
  let email := match validateEmail data.email with
    | some v => some v
    | none => emailFb
  let phone_ai := if truthy data.phone then validatePhone data.phone else none
  let phone := match phone_ai with
    | some v => some v
    | none => phoneFb
  let post_code := filterPostcode data.post_code
  let djt := jobTitleFromData data.desired_job_title
  let location := locationFromData data.location data.city data.country
  let contacts : Contacts :=
    { first_name := nm.1, last_name := nm.2, desired_job_title := djt,
      email := email, phone := phone, location := location,
      country := data.country, city := data.city, address := data.address,
      post_code := post_code,
      linkedin_url := orTruthy data.linkedin_url linkedinFb,
      github_url := orTruthy data.github_url githubFb,
      leetcode_url := orTruthy data.leetcode_url leetcodeFb }
  if truthy email ∨ truthy nm.1 ∨ truthy phone ∨ truthy djt ∨ truthy location ∨
      truthy data.city ∨ truthy data.country then
    contacts
  else if truthy emailFb ∨ truthy phoneFb then
    fallbackContacts emailFb phoneFb githubFb leetcodeFb linkedinFb
  else
    {}

/-- `_parse_personal_details`: compute the regex fallbacks from the full
text, ask the structured extractor about the header region, and either
validate its answer or fall back.  (The outer `except Exception` handler of
the source is unreachable in the typed model: every operation is total.) -/
def parsePersonalDetails (o : Oracle) (text : String) : Contacts :=
  let emailFb : Option String := (extractEmailFallback text.data).map fun m => (⟨m⟩ : String)
  let phoneFb : Option String := (extractPhoneFallback text.data).map fun m => (⟨m⟩ : String)
  let githubFb := extractUrlFallback "github.com/" text.data
  let leetcodeFb := extractUrlFallback "leetcode.com/" text.data
  let linkedinFb := extractUrlFallback "linkedin.com/" text.data
  match o.personal ⟨headerRegion text.data⟩ with
  | .error _ => fallbackContacts emailFb phoneFb githubFb leetcodeFb linkedinFb
  | .ok data => contactsFromData data emailFb phoneFb githubFb leetcodeFb linkedinFb

/-! ## Per-section parsers and `parse_resume`
(nlp_parsing_service.py 564-1541, 1544-1748) -/

/-- The common guard `if not section_text or not section_text.strip():
return None` of the per-section parsers; past the guard, the LLM call and
its response post-processing are the oracle. -/
def parseExperienceSection (o : Oracle) (t : String) : Option (List ExperienceEntry) :=
  if t = "" then none else if pyStrip t.data = [] then none else o.experienceOf t

def parseEducationSection (o : Oracle) (t : String) : Option (List EducationEntry) :=
  if t = "" then none else if pyStrip t.data = [] then none else o.educationOf t

def parseSkillsSection (o : Oracle) (t : String) : Option Skills :=
  if t = "" then none else if pyStrip t.data = [] then none else o.skillsOf t

def parseProjectsSection (o : Oracle) (t : String) : Option (List ProjectEntry) :=
  if t = "" then none else if pyStrip t.data = [] then none else o.projectsOf t

def parseAchievementsSection (o : Oracle) (t : String) : Option (List String) :=
  if t = "" then none else if pyStrip t.data = [] then none else o.achievementsOf t

/-- `extract_certifications` of the certification service (same guard). -/
def extractCertifications (o : Oracle) (t : String) : Option (List CertificateEntry) :=
  if t = "" then none else if pyStrip t.data = [] then none else o.certificationsOf t

/-- `_parse_summary_section` (same guard; the function itself catches every
exception and returns `None` on any failure, so it is total). -/
def parseSummarySection (o : Oracle) (t : String) : Option String :=
  if t = "" then none else if pyStrip t.data = [] then none else o.summaryOf t

/-- Python `keyword in normalized_text.lower()`. -/
def containsKW (lowered : List Char) (k : String) : Bool :=
  containsSub k.data lowered

/-- The short-input guard of `parse_resume` (line 1568):
`not normalized_text or len(normalized_text.strip()) < 10`. -/
def shortInput (s : String) : Prop :=
  s = "" ∨ ((⟨pyStrip s.data⟩ : String)).length < 10

instance (s : String) : Decidable (shortInput s) := by
  unfold shortInput; infer_instance

/-- The experience field group (lines 1611-1629): section when present,
otherwise a keyword-gated full-document fallback. -/
def experienceField (o : Oracle) (sections : List (String × String))
    (normalized : String) (lowered : List Char) : Option (List ExperienceEntry) :=
  let sec := lookupD sections "experience"
  if sec ≠ "" ∧ pyStrip sec.data ≠ [] then parseExperienceSection o sec
  else if containsKW lowered "experience" ∨ containsKW lowered "work" ∨
      containsKW lowered "employment" then
    parseExperienceSection o normalized
  else none

/-- The education field group (lines 1631-1654): section when present, with
a second-chance full-document parse when the section parse fails, otherwise
a keyword-gated full-document fallback. -/
def educationField (o : Oracle) (sections : List (String × String))
    (normalized : String) (lowered : List Char) : Option (List EducationEntry) :=
  let sec := lookupD sections "education"
  if sec ≠ "" ∧ pyStrip sec.data ≠ [] then
    match parseEducationSection o sec with
    | some e => some e
    | none => parseEducationSection o normalized
  else if containsKW lowered "education" ∨ containsKW lowered "university" ∨
      containsKW lowered "college" ∨ containsKW lowered "degree" then
    parseEducationSection o normalized
  else none

/-- The skills field group (lines 1656-1659): section only, no fallback. -/
def skillsField (o : Oracle) (sections : List (String × String)) : Option Skills :=
  let sec := lookupD sections "skills"
  if sec ≠ "" ∧ pyStrip sec.data ≠ [] then parseSkillsSection o sec else none

/-- The projects field group (lines 1661-1677). -/
def projectsField (o : Oracle) (sections : List (String × String))
    (normalized : String) (lowered : List Char) : Option (List ProjectEntry) :=
  let sec := lookupD sections "projects"
  if sec ≠ "" ∧ pyStrip sec.data ≠ [] then parseProjectsSection o sec
  else if containsKW lowered "project" ∨ containsKW lowered "portfolio" ∨
      containsKW lowered "github" then
    parseProjectsSection o normalized
  else none

/-- The certifications field group (lines 1679-1695). -/
def certificationsField (o : Oracle) (sections : List (String × String))
    (normalized : String) (lowered : List Char) : Option (List CertificateEntry) :=
  let sec : String := ⟨pyStrip (lookupD sections "certifications").data⟩
  if sec ≠ "" then extractCertifications o sec
  else if containsKW lowered "certificate" ∨ containsKW lowered "certification" ∨
      containsKW lowered "license" ∨ containsKW lowered "credential" then
    extractCertifications o normalized
  else none

/-- The achievements field group (lines 1697-1700): section only. -/
def achievementsField (o : Oracle) (sections : List (String × String)) :
    Option (List String) :=
  let sec := lookupD sections "achievements"
  if sec ≠ "" ∧ pyStrip sec.data ≠ [] then parseAchievementsSection o sec else none

/-- The summary field group (lines 1702-1728): extracted ONLY from a
non-empty detected summary section, with no full-document fallback.  (The
`except` branch around `_parse_summary_section` is dead code: that function
catches every exception itself and returns `None`.) -/
def summaryField (o : Oracle) (sections : List (String × String)) : Option String :=
  let sec : String := ⟨pyStrip (lookupD sections "summary").data⟩
  if sec ≠ "" then parseSummarySection o sec else none

/-- `parse_resume`: normalize, segment, then resolve each field group; on a
too-short input return a complete record with an empty contacts object and
every other field absent. -/
def parseResume (o : Oracle) (text : String) : ResumeData :=
  let normalized := normalizeText text
  if shortInput normalized then { contacts := some {} }
  else
    let sections := detectSections normalized
    let lowered := lowerL normalized.data
    { contacts := some (parsePersonalDetails o normalized),
      experience := experienceField o sections normalized lowered,
      education := educationField o sections normalized lowered,
      skills := skillsField o sections,
      projects := projectsField o sections normalized lowered,
      certifications := certificationsField o sections normalized lowered,
      achievements := achievementsField o sections,
      summary := summaryField o sections }

/-- A structured extractor that always fails / finds nothing. -/
def noneOracle : Oracle :=
  { personal := fun _ => .error (),
    experienceOf := fun _ => none,
    educationOf := fun _ => none,
    skillsOf := fun _ => none,
    projectsOf := fun _ => none,
    certificationsOf := fun _ => none,
    achievementsOf := fun _ => none,
    summaryOf := fun _ => none }

/-! ## C9, C4, C10: the orchestration guarantees of `parse_resume` -/

/-- The all-absent contacts object `Contacts()`. -/
def emptyContacts : Contacts :=
  { first_name := none, last_name := none, desired_job_title := none,
    email := none, phone := none, location := none, country := none,
    city := none, address := none, post_code := none, leetcode_url := none,
    github_url := none, linkedin_url := none }

/-- The record `ResumeData(contacts=Contacts())`: an empty contacts object
and every other field absent. -/
def emptyResumeData : ResumeData :=
  { contacts := some emptyContacts, experience := none, education := none,
    skills := none, projects := none, certifications := none,
    achievements := none, summary := none }

theorem parseResume_of_short (o : Oracle) (t : String)
    (h : shortInput (normalizeText t)) :
    parseResume o t = { contacts := some {} } := by
  simp only [parseResume]
  rw [if_pos h]

set_option maxHeartbeats 1000000 in
theorem parseResume_summary_eq (o : Oracle) (t : String)
    (hg : ¬ shortInput (normalizeText t)) :
    (parseResume o t).summary = summaryField o (detectSections (normalizeText t)) := by
  simp only [parseResume]
  rw [if_neg hg]

set_option maxHeartbeats 1000000 in
theorem parseResume_contacts_eq (o : Oracle) (t : String)
    (hg : ¬ shortInput (normalizeText t)) :
    (parseResume o t).contacts = some (parsePersonalDetails o (normalizeText t)) := by
  simp only [parseResume]
  rw [if_neg hg]

/-- C9: for every input that is empty or shorter than the minimum length
after normalization, `parse_resume` returns a complete record with an empty
contacts object and every other field absent, for ANY behaviour of the
external structured extractor; in the embedding every operation is total,
so no internal error can escape as an exception. -/
theorem parse_resume_short_input (o : Oracle) (t : String)
    (h : shortInput (normalizeText t)) :
    parseResume o t =
      emptyResumeData :=
  parseResume_of_short o t h

/-- C9 witness: the empty input is short, and `parse_resume` on it yields
the all-absent record even for the always-failing extractor. -/
theorem parse_resume_short_input_witness :
    shortInput (normalizeText "") ∧
    parseResume noneOracle "" =
      emptyResumeData :=
  ⟨by decide, parse_resume_short_input noneOracle "" (by decide)⟩

/-- C4: the summary field of the parsed record is populated only when the
section segmenter found a non-empty summary section: whenever the detected
summary section is empty after stripping, `parse_resume` resolves the
summary to absent, regardless of how the external structured extractor
behaves (no full-document fallback is ever attempted for the summary). -/
theorem parse_resume_summary_only_from_section (o : Oracle) (t : String)
    (h : (⟨pyStrip (lookupD (detectSections (normalizeText t)) "summary").data⟩ : String) = "") :
    (parseResume o t).summary = none := by
  by_cases hg : shortInput (normalizeText t)
  · rw [parseResume_of_short o t hg]
  · rw [parseResume_summary_eq o t hg]
    simp only [summaryField]
    rw [if_neg (fun hne => hne h)]

/-- An extractor that would eagerly report a summary for ANY text it is
shown. -/
def leakOracle : Oracle :=
  { noneOracle with summaryOf := fun _ => some "LEAK" }

/-- C4 witness: summary-like content filed under a "Certifications" heading
leaves the detected summary section empty, so even the eager extractor
cannot populate the summary field. -/
theorem parse_resume_summary_only_from_section_witness :
    (⟨pyStrip (lookupD (detectSections (normalizeText
        "Certifications\nExperienced engineer with a decade of shipping"))
      "summary").data⟩ : String) = "" ∧
    (parseResume leakOracle
        "Certifications\nExperienced engineer with a decade of shipping").summary = none :=
  ⟨by decide,
   parse_resume_summary_only_from_section leakOracle
     "Certifications\nExperienced engineer with a decade of shipping" (by decide)⟩

/-- C10: the output of the text normalizer never contains the character '|'
or the digit '0' (every pipe becomes capital I and every zero becomes
capital O), and `parse_resume` normalizes the whole document before any
extraction runs: the contacts extractor (with its regex fallbacks) is
applied exactly to `_normalize_text` of the input, so any phone number,
postcode or year containing a zero in the raw input is altered before the
fallback extractors see it. -/
theorem normalize_text_ocr_invariant (s : String) (o : Oracle) :
    '|' ∉ (normalizeText s).data ∧ '0' ∉ (normalizeText s).data ∧
    (parseResume o s).contacts = some
      (if shortInput (normalizeText s) then ({} : Contacts)
       else parsePersonalDetails o (normalizeText s)) := by
  refine ⟨normalizeTextL_noPipe s.data, normalizeTextL_noZero s.data, ?_⟩
  by_cases hg : shortInput (normalizeText s)
  · rw [parseResume_of_short o s hg, if_pos hg]
  · rw [if_neg hg]
    exact parseResume_contacts_eq o s hg

/-! ## C1: what the contact validators actually guarantee -/

theorem validateEmail_sound {e : Option String} {v : String}
    (h : validateEmail e = some v) :
    ∃ s, emailPrefixB s = true ∧ v = (⟨lowerL s⟩ : String) := by
  match e with
  | none => exact Option.noConfusion h
  | some s0 =>
    simp only [validateEmail] at h
    by_cases h0 : s0 = ""
    · rw [if_pos h0] at h; exact Option.noConfusion h
    · rw [if_neg h0] at h
      by_cases hm : emailPrefixB (pyStrip s0.data) = true
      · rw [if_pos hm] at h
        cases h
        exact ⟨pyStrip s0.data, hm, rfl⟩
      · rw [if_neg hm] at h; exact Option.noConfusion h

theorem scanAll_sound {matchAt : List Char → Option (List Char × List Char)}
    {P : List Char → Prop}
    (hP : ∀ l m r, matchAt l = some (m, r) → P m) :
    ∀ (fuel : Nat) (l m : List Char), m ∈ scanAll matchAt fuel l → P m
  | 0, _, m, h => by cases h
  | _ + 1, [], m, h => by cases h
  | fuel + 1, c :: rest, m, h => by
    simp only [scanAll] at h
    cases hm : matchAt (c :: rest) with
    | some p =>
      obtain ⟨mm, r⟩ := p
      rw [hm] at h
      rcases List.mem_cons.1 h with rfl | h
      · exact hP _ _ _ hm
      · exact scanAll_sound hP fuel r m h
    | none =>
      rw [hm] at h
      exact scanAll_sound hP fuel rest m h

theorem dotSearch_sound {D r2 : List Char} : ∀ {j k : Nat} {a : List Char},
    dotSearch D r2 j = some (k, a) →
    D.get? k = some '.' ∧ a = (r2.drop (k + 1)).takeWhile Char.isAlpha ∧
      2 ≤ a.length ∧ 1 ≤ k
  | 0, k, a, h => Option.noConfusion h
  | j + 1, k, a, h => by
    simp only [dotSearch] at h
    by_cases hc : D.get? (j + 1) = some '.' ∧
        2 ≤ ((r2.drop (j + 2)).takeWhile Char.isAlpha).length
    · rw [if_pos hc] at h
      cases h
      exact ⟨hc.1, rfl, hc.2, by omega⟩
    · rw [if_neg hc] at h
      exact dotSearch_sound h

theorem takeWhile_all_append {p : Char → Bool} :
    ∀ {l : List Char}, (∀ x ∈ l, p x = true) → ∀ {c : Char}, p c = false →
      ∀ (r : List Char), (l ++ c :: r).takeWhile p = l
  | [], _, c, hc, r => by
    rw [List.nil_append, List.takeWhile_cons_of_neg (by simp [hc])]
  | x :: l, hall, c, hc, r => by
    rw [List.cons_append, List.takeWhile_cons_of_pos (hall x (by simp)),
      takeWhile_all_append (fun y hy => hall y (by simp [hy])) hc r]

theorem domWalk_finds {a1 a2 : Char} {arest : List Char}
    (ha1 : a1.isAlpha = true) (ha2 : a2.isAlpha = true) :
    ∀ {d : List Char}, d ≠ [] → (∀ x ∈ d, isDomChar x = true) → ∀ (b : Bool),
      domWalk b (d ++ '.' :: a1 :: a2 :: arest) = true
  | [], hne, _, _ => absurd rfl hne
  | [x], _, hdom, b => by
    rw [List.cons_append, List.nil_append, domWalk,
      if_neg (fun hx => by simpa [startsTwoAlpha] using hx.2.2),
      if_pos (hdom x (by simp)), domWalk,
      if_pos ⟨rfl, rfl, by simp [startsTwoAlpha, ha1, ha2]⟩]
  | x :: y :: d, hne, hdom, b => by
    rw [List.cons_append, domWalk]
    by_cases hx : x = '.' ∧ b = true ∧
        startsTwoAlpha ((y :: d) ++ '.' :: a1 :: a2 :: arest) = true
    · rw [if_pos hx]
    · rw [if_neg hx, if_pos (hdom x (by simp))]
      exact domWalk_finds ha1 ha2 (by simp) (fun z hz => hdom z (by simp [hz])) true

theorem emailMatchAt_sound {l m r : List Char} (h : emailMatchAt l = some (m, r)) :
    emailPrefixB m = true := by
  simp only [emailMatchAt] at h
  by_cases hle : (l.takeWhile isLocalChar).isEmpty = true
  · rw [if_pos hle] at h; exact Option.noConfusion h
  · rw [if_neg hle] at h
    cases hd : l.drop (l.takeWhile isLocalChar).length with
    | nil => rw [hd] at h; exact Option.noConfusion h
    | cons c r2 =>
      rw [hd] at h
      have h' : (if c = '@' then
          match dotSearch (r2.takeWhile isDomChar) r2
              ((r2.takeWhile isDomChar).length - 1) with
          | some (k, a) =>
            some ((l.takeWhile isLocalChar) ++ '@' ::
                ((r2.takeWhile isDomChar).take k ++ '.' :: a),
              r2.drop (k + 1 + a.length))
          | none => none
        else none) = some (m, r) := h
      clear h
      by_cases hc : c = '@'
      · rw [if_pos hc] at h'
        cases hds : dotSearch (r2.takeWhile isDomChar) r2
            ((r2.takeWhile isDomChar).length - 1) with
        | none => rw [hds] at h'; exact Option.noConfusion h'
        | some p =>
          obtain ⟨k, a⟩ := p
          rw [hds] at h'
          cases h'
          obtain ⟨hdot, ha, ha2, hk1⟩ := dotSearch_sound hds
          have hklt : k < (r2.takeWhile isDomChar).length :=
            (List.get?_eq_some.1 hdot).choose
          -- the local part of the match is the original local-class run
          have htw : ((l.takeWhile isLocalChar) ++ '@' ::
              ((r2.takeWhile isDomChar).take k ++ '.' :: a)).takeWhile isLocalChar =
              l.takeWhile isLocalChar :=
            takeWhile_all_append (fun x hx => List.mem_takeWhile_imp hx) (by decide) _
          simp only [emailPrefixB, htw]
          rw [if_neg hle, List.drop_left]
          -- reduce the match and walk the domain
          show domWalk false ((r2.takeWhile isDomChar).take k ++ '.' :: a) = true
          obtain ⟨a1, a2', arest, rfl⟩ : ∃ a1 a2' arest, a = a1 :: a2' :: arest := by
            match a, ha2 with
            | a1 :: a2' :: arest, _ => exact ⟨a1, a2', arest, rfl⟩
          have hal : ∀ x ∈ (a1 :: a2' :: arest), x.isAlpha = true := by
            rw [ha]; intro x hx; exact List.mem_takeWhile_imp hx
          apply domWalk_finds (hal a1 (by simp)) (hal a2' (by simp))
          · intro htk
            have : ((r2.takeWhile isDomChar).take k).length = 0 := by rw [htk]; rfl
            rw [List.length_take] at this
            omega
          · intro x hx
            exact List.mem_takeWhile_imp ((List.take_sublist _ _).subset hx)
      · rw [if_neg hc] at h'; exact Option.noConfusion h'

theorem pickEmail_sound {found : List (List Char)} {v : List Char}
    (h : pickEmail found = some v) : ∃ m ∈ found, v = lowerL m := by
  simp only [pickEmail] at h
  cases hf : found.find?
      (fun m => personalDomains.any fun d => containsSub d.data (lowerL m)) with
  | some m =>
    rw [hf] at h
    cases h
    exact ⟨m, List.mem_of_find?_eq_some hf, rfl⟩
  | none =>
    rw [hf] at h
    cases found with
    | nil => exact Option.noConfusion h
    | cons m ms =>
      simp only [List.head?_cons, Option.map_some'] at h
      cases h
      exact ⟨m, by simp, rfl⟩

theorem extractEmailFallback_sound {l m : List Char}
    (h : extractEmailFallback l = some m) :
    ∃ s, emailPrefixB s = true ∧ m = lowerL s := by
  have hsound : ∀ (x mm : List Char), mm ∈ emailFindAll x → emailPrefixB mm = true :=
    fun x mm hmem =>
      scanAll_sound (P := fun z => emailPrefixB z = true)
        (fun _ _ _ hm1 => emailMatchAt_sound hm1) _ _ _ hmem
  simp only [extractEmailFallback] at h
  by_cases h1 : (emailFindAll (headerText50 l)).isEmpty = true
  · rw [if_neg (by simp [h1])] at h
    by_cases h2 : (emailFindAll l).isEmpty = true
    · rw [if_neg (by simp [h2])] at h
      exact Option.noConfusion h
    · rw [if_pos (by simp [Bool.not_eq_true] at h2 ⊢; exact h2)] at h
      obtain ⟨m', hmem, rfl⟩ := pickEmail_sound h
      exact ⟨m', hsound _ _ hmem, rfl⟩
  · rw [if_pos (by simp [Bool.not_eq_true] at h1 ⊢; exact h1)] at h
    obtain ⟨m', hmem, rfl⟩ := pickEmail_sound h
    exact ⟨m', hsound _ _ hmem, rfl⟩

theorem emailFbS_sound {t w : String}
    (h : (extractEmailFallback t.data).map (fun m => (⟨m⟩ : String)) = some w) :
    ∃ s, emailPrefixB s = true ∧ w = (⟨lowerL s⟩ : String) := by
  obtain ⟨m, hm, rfl⟩ := Option.map_eq_some'.1 h
  obtain ⟨s, h1, h2⟩ := extractEmailFallback_sound hm
  exact ⟨s, h1, by rw [h2]⟩

theorem head?_mem {α : Type} {l : List α} {a : α} (h : l.head? = some a) : a ∈ l := by
  cases l with
  | nil => cases h
  | cons b bs =>
    simp only [List.head?_cons, Option.some.injEq] at h
    rw [← h]
    simp

theorem pyStrip_of_no_ws {l : List Char} (h : ∀ c ∈ l, isPyWs c = false) :
    pyStrip l = l := by
  have hl : lstrip l = l := by
    apply dropWhile_eq_self_of_head
    intro c hc
    exact h c (head?_mem hc)
  show rstrip (lstrip l) = l
  rw [hl, rstrip, dropWhile_eq_self_of_head, List.reverse_reverse]
  intro c hc
  exact h c (by simpa using head?_mem hc)

theorem cleanPhoneL_idem (l : List Char) : cleanPhoneL (cleanPhoneL l) = cleanPhoneL l := by
  have hnows : ∀ c ∈ (pyStrip l).filter (fun c => !(isPhoneStripChar c)), isPyWs c = false := by
    intro c hc
    have hq := (List.mem_filter.1 hc).2
    simp only [Bool.not_eq_true'] at hq
    cases hw : isPyWs c with
    | false => rfl
    | true => rw [show isPhoneStripChar c = true by simp [isPhoneStripChar, hw]] at hq; cases hq
  show ((pyStrip (cleanPhoneL l)).filter fun c => !(isPhoneStripChar c)) = cleanPhoneL l
  rw [show cleanPhoneL l = (pyStrip l).filter (fun c => !(isPhoneStripChar c)) from rfl,
    pyStrip_of_no_ws hnows]
  apply List.filter_eq_self.2
  intro a ha
  exact (List.mem_filter.1 ha).2

theorem validatePhone_sound {p : Option String} {v : String}
    (h : validatePhone p = some v) : phoneFullB v.data = true := by
  match p with
  | none => exact Option.noConfusion h
  | some s =>
    simp only [validatePhone] at h
    by_cases h0 : s = ""
    · rw [if_pos h0] at h; exact Option.noConfusion h
    · rw [if_neg h0] at h
      by_cases hf : phoneFullB (cleanPhoneL s.data) = true
      · rw [if_pos hf] at h; cases h; exact hf
      · rw [if_neg hf] at h; exact Option.noConfusion h

theorem validatePhone_isSome_full {s : String}
    (h : (validatePhone (some s)).isSome = true) :
    phoneFullB (cleanPhoneL s.data) = true := by
  simp only [validatePhone] at h
  by_cases h0 : s = ""
  · rw [if_pos h0] at h; cases h
  · rw [if_neg h0] at h
    by_cases hf : phoneFullB (cleanPhoneL s.data) = true
    · exact hf
    · rw [if_neg hf] at h; cases h

theorem firstValidPhone_sound : ∀ {ms : List (List Char)} {ph : List Char},
    firstValidPhone ms = some ph → phoneFullB ph = true
  | [], ph, h => Option.noConfusion h
  | m :: ms, ph, h => by
    simp only [firstValidPhone] at h
    by_cases hv : (validatePhone (some (⟨cleanPhoneL m⟩ : String))).isSome = true
    · rw [if_pos hv] at h
      cases h
      have h2 : phoneFullB (cleanPhoneL (cleanPhoneL m)) = true :=
        validatePhone_isSome_full hv
      rwa [cleanPhoneL_idem] at h2
    · rw [if_neg hv] at h
      exact firstValidPhone_sound h

theorem extractPhoneFallback_sound {l ph : List Char}
    (h : extractPhoneFallback l = some ph) : phoneFullB ph = true := by
  simp only [extractPhoneFallback] at h
  cases hm : phoneFindAll (headerText50 l) with
  | nil =>
    rw [hm] at h
    exact firstValidPhone_sound h
  | cons m ms =>
    rw [hm] at h
    have h' : (if (validatePhone (some (⟨cleanPhoneL m⟩ : String))).isSome = true
        then some (cleanPhoneL m) else firstValidPhone (phoneFindAll l)) = some ph := h
    clear h
    by_cases hv : (validatePhone (some (⟨cleanPhoneL m⟩ : String))).isSome = true
    · rw [if_pos hv] at h'
      cases h'
      have h2 : phoneFullB (cleanPhoneL (cleanPhoneL m)) = true :=
        validatePhone_isSome_full hv
      rwa [cleanPhoneL_idem] at h2
    · rw [if_neg hv] at h'
      exact firstValidPhone_sound h'

theorem phoneFbS_sound {t w : String}
    (h : (extractPhoneFallback t.data).map (fun m => (⟨m⟩ : String)) = some w) :
    phoneFullB w.data = true := by
  obtain ⟨m, hm, rfl⟩ := Option.map_eq_some'.1 h
  exact extractPhoneFallback_sound hm

theorem filterPostcode_sound {pc : Option String} {v : String}
    (h : filterPostcode pc = some v) :
    v = "" ∨ (postcodeBoundary 6 (pyStrip v.data) || postcodeBoundary 5 (pyStrip v.data)) = true := by
  match pc with
  | none => exact Option.noConfusion h
  | some w =>
    simp only [filterPostcode] at h
    by_cases h0 : w = ""
    · rw [if_pos h0] at h; cases h; left; exact h0
    · rw [if_neg h0] at h
      by_cases hb : (postcodeBoundary 6 (pyStrip w.data) ||
          postcodeBoundary 5 (pyStrip w.data)) = true
      · rw [if_pos hb] at h; cases h; right; exact hb
      · rw [if_neg hb] at h; exact Option.noConfusion h

/-! The result of `contactsFromData` is one of three records, and its
email / phone / post_code fields come from the validators or fallbacks. -/

theorem contactsFromData_email (data : PersonalJson)
    (efb pfb gfb lfb ifb : Option String) :
    (contactsFromData data efb pfb gfb lfb ifb).email =
        (match validateEmail data.email with
         | some v => some v
         | none => efb) ∨
    (contactsFromData data efb pfb gfb lfb ifb).email = efb ∨
    (contactsFromData data efb pfb gfb lfb ifb).email = none := by
  simp only [contactsFromData]
  repeat' split
  all_goals first
    | (left; rfl)
    | (right; left; rfl)
    | (right; right; rfl)

theorem contactsFromData_phone (data : PersonalJson)
    (efb pfb gfb lfb ifb : Option String) :
    (contactsFromData data efb pfb gfb lfb ifb).phone =
        (match (if truthy data.phone then validatePhone data.phone else none) with
         | some v => some v
         | none => pfb) ∨
    (contactsFromData data efb pfb gfb lfb ifb).phone = pfb ∨
    (contactsFromData data efb pfb gfb lfb ifb).phone = none := by
  simp only [contactsFromData]
  repeat' split
  all_goals first
    | (left; rfl)
    | (right; left; rfl)
    | (right; right; rfl)

theorem contactsFromData_post_code (data : PersonalJson)
    (efb pfb gfb lfb ifb : Option String) :
    (contactsFromData data efb pfb gfb lfb ifb).post_code =
        filterPostcode data.post_code ∨
    (contactsFromData data efb pfb gfb lfb ifb).post_code = none := by
  simp only [contactsFromData]
  repeat' split
  all_goals first
    | (left; rfl)
    | (right; rfl)

/-- C1 counterexample: a structured-extractor response carrying the
malformed email candidate `"John@x.com!!!"`. -/
def emailProbeOracle : Oracle :=
  { noneOracle with personal := fun _ => .ok { email := some "John@x.com!!!" } }

/-- C1 counterexample: `_validate_email` only anchors `EMAIL_REGEX` at the
start of the candidate (`re.match` with an unanchored tail), so the whole
lower-cased candidate `"john@x.com!!!"` — which does NOT match the address
grammar as a whole string — is stored in the constructed contact record. -/
theorem contact_email_passthrough :
    (parsePersonalDetails emailProbeOracle "filler words here").email =
      some "john@x.com!!!" ∧
    emailFullB (String.data "john@x.com!!!") = false :=
  ⟨by decide, by decide⟩

/-- C1 (amended): for every constructed contact record — any extractor
behaviour, any input text — the phone field, if present, consists of digits
only with an optional leading '+' and has 10 to 15 digits; the email field,
if present, is the lower-casing of a candidate of which (only) a PREFIX
matches the local@domain.tld grammar; the post_code field, if present, is
either the empty string passed through, or a candidate whose stripped value
(only) BEGINS with a word-bounded 5- or 6-digit run; any truthy candidate
failing these prefix checks is returned as absent. -/
theorem contact_record_field_validation (o : Oracle) (t : String) :
    (∀ v, (parsePersonalDetails o t).email = some v →
        ∃ s, emailPrefixB s = true ∧ v = (⟨lowerL s⟩ : String)) ∧
    (∀ v, (parsePersonalDetails o t).phone = some v → phoneFullB v.data = true) ∧
    (∀ v, (parsePersonalDetails o t).post_code = some v →
        v = "" ∨ (postcodeBoundary 6 (pyStrip v.data) ||
          postcodeBoundary 5 (pyStrip v.data)) = true) := by
  simp only [parsePersonalDetails]
  cases hp : o.personal ⟨headerRegion t.data⟩ with
  | error e =>
    refine ⟨?_, ?_, ?_⟩
    · intro v hv
      exact emailFbS_sound hv
    · intro v hv
      exact phoneFbS_sound hv
    · intro v hv
      exact Option.noConfusion hv
  | ok data =>
    refine ⟨?_, ?_, ?_⟩
    · intro v hv
      rcases contactsFromData_email data
          ((extractEmailFallback t.data).map fun m => (⟨m⟩ : String))
          ((extractPhoneFallback t.data).map fun m => (⟨m⟩ : String))
          (extractUrlFallback "github.com/" t.data)
          (extractUrlFallback "leetcode.com/" t.data)
          (extractUrlFallback "linkedin.com/" t.data) with hE | hE | hE
      · rw [hE] at hv
        cases hve : validateEmail data.email with
        | some w => rw [hve] at hv; cases hv; exact validateEmail_sound hve
        | none => rw [hve] at hv; exact emailFbS_sound hv
      · rw [hE] at hv
        exact emailFbS_sound hv
      · rw [hE] at hv
        exact Option.noConfusion hv
    · intro v hv
      rcases contactsFromData_phone data
          ((extractEmailFallback t.data).map fun m => (⟨m⟩ : String))
          ((extractPhoneFallback t.data).map fun m => (⟨m⟩ : String))
          (extractUrlFallback "github.com/" t.data)
          (extractUrlFallback "leetcode.com/" t.data)
          (extractUrlFallback "linkedin.com/" t.data) with hP | hP | hP
      · rw [hP] at hv
        by_cases ht : truthy data.phone = true
        · rw [if_pos ht] at hv
          cases hvp : validatePhone data.phone with
          | some w => rw [hvp] at hv; cases hv; exact validatePhone_sound hvp
          | none => rw [hvp] at hv; exact phoneFbS_sound hv
        · rw [if_neg ht] at hv
          exact phoneFbS_sound hv
      · rw [hP] at hv
        exact phoneFbS_sound hv
      · rw [hP] at hv
        exact Option.noConfusion hv
    · intro v hv
      rcases contactsFromData_post_code data
          ((extractEmailFallback t.data).map fun m => (⟨m⟩ : String))
          ((extractPhoneFallback t.data).map fun m => (⟨m⟩ : String))
          (extractUrlFallback "github.com/" t.data)
          (extractUrlFallback "leetcode.com/" t.data)
          (extractUrlFallback "linkedin.com/" t.data) with hC | hC
      · rw [hC] at hv
        exact filterPostcode_sound hv
      · rw [hC] at hv
        exact Option.noConfusion hv

/-- C1 witness: on a text whose header contains a phone number, the
(extractor-less) record resolves the phone via the regex fallback, and the
amended theorem certifies that the stored value is a full
optional-plus-then-10-to-15-digits string. -/
theorem contact_record_field_validation_witness :
    (parsePersonalDetails noneOracle "call +1 (555) 123-4567 now").phone =
      some "+15551234567" ∧
    phoneFullB (String.data "+15551234567") = true :=
  ⟨by decide,
   (contact_record_field_validation noneOracle "call +1 (555) 123-4567 now").2.1
     "+15551234567" (by decide)⟩

end ResumeGen
